import Mathlib

/-! # dd-trace-go v1 compatibility layer: a shallow embedding

The v1 package `ddtrace/tracer` of this repository is a thin layer over the v2 tracer:
`context.go`, `tracer.go`, `sqlcomment.go`, `option.go` and the adapters of
`internal/v2adapter.go`.  The definitions below follow those files function by function.

Conventions of the embedding.
* A Go interface value is an `Option`: `none` is the nil interface, `some v` carries the
  dynamic value.
* A Go call that can panic returns `Except Panic _`.
* `uint64` values are natural numbers, reduced `% 2 ^ 64` where the code reads them.
* Mutation through a pointer receiver is explicit state passing: the method returns the
  updated receiver next to its results.
-/

namespace DDTrace

/-! ## Go runtime notions used by the sources -/

/-- Run-time panics raised by the Go runtime or the standard library on the paths below. -/
inductive Panic where
  | nilParentContext
  | nilMapAssignment
  | nilDereference
  | stackOverflow
  | typeAssertion
  | indexOutOfRange
  deriving DecidableEq, Repr

/-- The modulus of `uint64` arithmetic. -/
def uint64Size : Nat := 2 ^ 64

/-! ## The v2 span and span context (`github.com/DataDog/dd-trace-go/v2/ddtrace/tracer`) -/

/-- Modelled from the spec: the v2 `SpanContext` type is declared in `v2/ddtrace/tracer`,
which is not among the sources.  Following the data model (section 3), a span context holds
a trace id that is a 128-bit value given by its high and low 64 bits, a span id, a sampling
priority (unset when `none`) and a baggage mapping. -/
structure V2SpanContext where
  traceIDUpper : Nat
  traceIDLower : Nat
  spanID : Nat
  priority : Option Int
  baggage : List (String × String)
  deriving DecidableEq, Repr

/-- Modelled from the spec: the v2 method `(*SpanContext).TraceIDLower` is not among the
sources; it returns the low 64 bits of the trace id.  The receiver is a pointer; a nil
pointer is read as the empty context (section 7: no failure of the core is a crash). -/
def V2SpanContext.TraceIDLower : Option V2SpanContext → Nat
  | none => 0
  | some c => c.traceIDLower % uint64Size

/-- Modelled from the spec: the v2 method `(*SpanContext).TraceIDUpper` is not among the
sources; it returns the high 64 bits of the trace id, zero for a nil pointer. -/
def V2SpanContext.TraceIDUpper : Option V2SpanContext → Nat
  | none => 0
  | some c => c.traceIDUpper % uint64Size

/-- Modelled from the spec: the v2 method `(*SpanContext).SpanID` is not among the sources;
it returns the span id, zero for a nil pointer. -/
def V2SpanContext.SpanID : Option V2SpanContext → Nat
  | none => 0
  | some c => c.spanID % uint64Size

/-- Modelled from the spec: the v2 `Span` type is declared in `v2/ddtrace/tracer`, which is
not among the sources.  Of a v2 span the adapters only use the span context it returns from
`Context()`; the operation name is kept to tell spans apart. -/
structure V2Span where
  name : String
  context : V2SpanContext
  deriving DecidableEq, Repr

/-- Modelled from the spec: the v2 method `(*Span).Context` is not among the sources; it
returns the span context of the span, nil for a nil span. -/
def V2Span.Context : Option V2Span → Option V2SpanContext
  | none => none
  | some s => some s.context

/-! ## The adapter types of `internal/v2adapter.go` -/

/-- The struct `SpanV2Adapter` of `v2adapter.go`, holding a `*v2.Span`. -/
structure SpanV2Adapter where
  Span : Option V2Span
  deriving DecidableEq, Repr

/-- The struct `SpanContextV2Adapter` of `v2adapter.go`, holding a `*v2.SpanContext`. -/
structure SpanContextV2Adapter where
  Ctx : Option V2SpanContext
  deriving DecidableEq, Repr

/-! ## Dynamic values of the v1 interfaces `ddtrace.Span` and `ddtrace.SpanContext` -/

/-- A non-nil value of interface type `ddtrace.Span`, by dynamic type:
`*traceinternal.NoopSpan`, `*internal.SpanV2Adapter` (constructor `V2Adapter`), or a value
of any other implementing type, described by the names of the methods it declares beyond
those of `ddtrace.Span` and an identity. -/
inductive Span where
  | NoopSpan : Span
  | V2Adapter (sa : SpanV2Adapter) : Span
  | custom (extraMethods : List String) (id : Nat) : Span
  deriving DecidableEq, Repr

/-- The methods every implementation of `ddtrace.Span` has. -/
def spanInterfaceMethods : List String :=
  ["BaggageItem", "Context", "Finish", "SetBaggageItem", "SetOperationName", "SetTag"]

/-- The method set of the dynamic type of a span.  For `*SpanV2Adapter` these are the
methods declared in `internal/v2adapter.go`: `BaggageItem`, `Context`, `Finish`,
`SetBaggageItem`, `SetOperationName`, `SetTag` and `Root`. -/
def Span.methodSet : Span → List String
  | .NoopSpan => spanInterfaceMethods
  | .V2Adapter _ =>
      ["BaggageItem", "Context", "Finish", "SetBaggageItem", "SetOperationName", "SetTag",
        "Root"]
  | .custom extra _ => spanInterfaceMethods ++ extra

/-- A Go type assertion `v.(I)` to an interface type `I` succeeds exactly when the method
set of the dynamic type of `v` contains every method of `I`. -/
def implements (methodSet iface : List String) : Bool :=
  iface.all fun m => methodSet.contains m

/-! ## `context.Context` -/

/-- Keys under which values are stored in a context.  `ActiveSpanKey` is
`internal.ActiveSpanKey`; every other key of the program is an `other`. -/
inductive CtxKey where
  | ActiveSpanKey : CtxKey
  | other (id : Nat) : CtxKey
  deriving DecidableEq, Repr

/-- A value of type `interface{}` stored in a context: the nil interface, a value whose
dynamic type implements `ddtrace.Span`, or a value of a type that does not. -/
inductive AnyVal where
  | nil : AnyVal
  | span (s : Span) : AnyVal
  | other (id : Nat) : AnyVal
  deriving DecidableEq, Repr

/-- A non-nil `context.Context`: the chain of `WithValue` bindings, innermost first, over
an empty root (`context.Background()` or `context.TODO()`). -/
abbrev Context := List (CtxKey × AnyVal)

/-- The root context `context.Background()`. -/
def context.Background : Context := []

/-- The root context `context.TODO()`. -/
def context.TODO : Context := []

/-- The standard library's `context.WithValue(parent, key, val)`: it panics with
"cannot create context from nil parent" when `parent` is nil, and otherwise returns a
context that binds `key` to `val` in front of `parent`. -/
def context.WithValue (parent : Option Context) (key : CtxKey) (val : AnyVal) :
    Except Panic Context :=
  match parent with
  | none => .error .nilParentContext
  | some p => .ok ((key, val) :: p)

/-- The method `ctx.Value(key)` of a non-nil context: the innermost binding of `key`, or
nil when there is none. -/
def Context.Value : Context → CtxKey → AnyVal
  | [], _ => .nil
  | (k, v) :: rest, key => if k = key then v else Context.Value rest key

/-- Conversion of a `ddtrace.Span` interface value to `interface{}`. -/
def Span.toAny : Option Span → AnyVal
  | none => .nil
  | some s => .span s

/-- The type assertion `v.(ddtrace.Span)`. -/
def AnyVal.assertSpan : AnyVal → Option Span
  | .span s => some s
  | _ => none

/-! ## `ddtrace/tracer/context.go` -/

/-- The function `ContextWithSpan` of `context.go`:
`return context.WithValue(ctx, internal.ActiveSpanKey, s)`. -/
def ContextWithSpan (ctx : Option Context) (s : Option Span) : Except Panic Context :=
  context.WithValue ctx .ActiveSpanKey (Span.toAny s)

/-- The function `SpanFromContext` of `context.go`. -/
def SpanFromContext (ctx : Option Context) : Option Span × Bool :=
  match ctx with
  | none => (some .NoopSpan, false)
  | some c =>
    let v := c.Value .ActiveSpanKey
    match v.assertSpan with
    | some s => (some s, true)
    | none => (some .NoopSpan, false)

/-! ## `internal/v2adapter.go`: span contexts -/

/-- A non-nil value of interface type `ddtrace.SpanContext`, by dynamic type:
`*internal.SpanContextV2Adapter`, or a value of any other implementing type, described by
what its methods `TraceID`, `SpanID` and `ForeachBaggageItem` yield and by the names of
the methods it declares beyond those of `ddtrace.SpanContext`. -/
inductive SpanContext where
  | V2Adapter (sca : SpanContextV2Adapter) : SpanContext
  | custom (traceID spanID : Nat) (baggage : List (String × String))
      (extraMethods : List String) : SpanContext
  deriving DecidableEq, Repr

/-- The methods every implementation of `ddtrace.SpanContext` has. -/
def spanContextInterfaceMethods : List String := ["ForeachBaggageItem", "SpanID", "TraceID"]

/-- Modelled from the spec: the interface `ddtrace.SpanContextW3C` is declared in
`ddtrace/ddtrace.go`, which is not among the sources.  It extends `ddtrace.SpanContext`
with the method `TraceID128`, the full 128-bit trace id as a 32-character hex string
(`context_test.go`, `Test128`). -/
def spanContextW3CMethods : List String := spanContextInterfaceMethods ++ ["TraceID128"]

/-- The method `(*SpanContextV2Adapter).TraceID`: `return sca.Ctx.TraceIDLower()`. -/
def SpanContextV2Adapter.TraceID (sca : SpanContextV2Adapter) : Nat :=
  V2SpanContext.TraceIDLower sca.Ctx

/-- The method `(*SpanContextV2Adapter).SpanID`: `return sca.Ctx.SpanID()`. -/
def SpanContextV2Adapter.SpanID (sca : SpanContextV2Adapter) : Nat :=
  V2SpanContext.SpanID sca.Ctx

/-- The method set of the dynamic type of a span context.  `*SpanContextV2Adapter`
declares `ForeachBaggageItem`, `SpanID` and `TraceID` in `v2adapter.go`, and nothing
else. -/
def SpanContext.methodSet : SpanContext → List String
  | .V2Adapter _ => ["ForeachBaggageItem", "SpanID", "TraceID"]
  | .custom _ _ _ extra => spanContextInterfaceMethods ++ extra

/-- The interface method `TraceID() uint64` of a non-nil `ddtrace.SpanContext`. -/
def SpanContext.TraceID : SpanContext → Nat
  | .V2Adapter sca => sca.TraceID
  | .custom traceID _ _ _ => traceID % uint64Size

/-- The interface method `SpanID() uint64` of a non-nil `ddtrace.SpanContext`. -/
def SpanContext.SpanID : SpanContext → Nat
  | .V2Adapter sca => sca.SpanID
  | .custom _ spanID _ _ => spanID % uint64Size

/-- The type assertion `c.(ddtrace.SpanContextW3C)` with its `ok` result. -/
def SpanContext.assertSpanContextW3C (c : Option SpanContext) : Option SpanContext × Bool :=
  match c with
  | none => (none, false)
  | some v => if implements v.methodSet spanContextW3CMethods then (some v, true)
      else (none, false)

/-- The struct `SpanContextV1Adapter` of `v2adapter.go`, holding a `ddtrace.SpanContext`
interface value. -/
structure SpanContextV1Adapter where
  Ctx : Option SpanContext
  deriving DecidableEq, Repr

/-- The eight bytes of a `uint64`, most significant first: `byte(v >> 56)`, ...,
`byte(v)`. -/
def bigEndianBytes (v : Nat) : List Nat :=
  [v / 2 ^ 56 % 256, v / 2 ^ 48 % 256, v / 2 ^ 40 % 256, v / 2 ^ 32 % 256,
    v / 2 ^ 24 % 256, v / 2 ^ 16 % 256, v / 2 ^ 8 % 256, v % 256]

/-- The standard library's `binary.BigEndian.PutUint64(b, v)` on a slice of length at
least 8: it writes the bytes of `v` to `b[0]`, ..., `b[7]` and leaves the rest of `b`. -/
def binary.BigEndian.PutUint64 (b : List Nat) (v : Nat) : List Nat :=
  bigEndianBytes v ++ b.drop 8

/-- The standard library's `binary.BigEndian.Uint64(b)`: the number whose big-endian bytes
are `b[0]`, ..., `b[7]` (bytes are below 256, so the bitwise or of the shifted bytes is
their sum). -/
def binary.BigEndian.Uint64 (b : List Nat) : Nat :=
  b.getD 0 0 * 2 ^ 56 + b.getD 1 0 * 2 ^ 48 + b.getD 2 0 * 2 ^ 40 + b.getD 3 0 * 2 ^ 32 +
    b.getD 4 0 * 2 ^ 24 + b.getD 5 0 * 2 ^ 16 + b.getD 6 0 * 2 ^ 8 + b.getD 7 0

/-- The method `(*SpanContextV1Adapter).TraceIDBytes`:
`var traceIDBytes [16]byte; binary.BigEndian.PutUint64(traceIDBytes[:], sca.Ctx.TraceID())`.
Calling `TraceID` on a nil interface is a nil dereference. -/
def SpanContextV1Adapter.TraceIDBytes (sca : SpanContextV1Adapter) : Except Panic (List Nat) :=
  match sca.Ctx with
  | none => .error .nilDereference
  | some c =>
    let traceIDBytes : List Nat := List.replicate 16 0
    .ok (binary.BigEndian.PutUint64 traceIDBytes c.TraceID)

/-- The method `(*SpanContextV1Adapter).TraceIDLower`: `return sca.Ctx.TraceID()`. -/
def SpanContextV1Adapter.TraceIDLower (sca : SpanContextV1Adapter) : Except Panic Nat :=
  match sca.Ctx with
  | none => .error .nilDereference
  | some c => .ok c.TraceID

/-- The method `(*SpanContextV1Adapter).SpanID`: `return sca.Ctx.SpanID()`. -/
def SpanContextV1Adapter.SpanID (sca : SpanContextV1Adapter) : Except Panic Nat :=
  match sca.Ctx with
  | none => .error .nilDereference
  | some c => .ok c.SpanID

/-- Modelled from the spec: the v2 method `(*SpanContext).TraceIDBytes` is not among the
sources.  The full 128-bit trace id in big-endian form (data model, section 3): the high
64 bits in bytes 0 to 7 and the low 64 bits in bytes 8 to 15. -/
def V2SpanContext.TraceIDBytes (c : Option V2SpanContext) : List Nat :=
  bigEndianBytes (V2SpanContext.TraceIDUpper c) ++ bigEndianBytes (V2SpanContext.TraceIDLower c)

/-- The sixteen bytes that hold a 64-bit trace id `t` as a big-endian 128-bit value: eight
zero bytes for the high half, then the big-endian bytes of `t`. -/
def traceID128Of64 (t : Nat) : List Nat := List.replicate 8 0 ++ bigEndianBytes t

/-! ## `internal/v2adapter.go`: spans -/

/-- The method `(*SpanV2Adapter).Context`:
`Ctx := sa.Span.Context(); return &SpanContextV2Adapter{Ctx}`. -/
def SpanV2Adapter.Context (sa : SpanV2Adapter) : Option SpanContext :=
  let Ctx := V2Span.Context sa.Span
  some (.V2Adapter { Ctx := Ctx })

/-! ## `ddtrace/tracer/context.go` and `tracer.go`: starting spans -/

/-- The function `StartSpan` of `tracer.go`.  The v2 call
`v2.GetGlobalTracer().StartSpan(operationName, opts...)` is the parameter `v2StartSpan`;
its result is wrapped in a `SpanV2Adapter`. -/
def StartSpan {Opt : Type} (v2StartSpan : String → List Opt → Option V2Span)
    (operationName : String) (opts : List Opt) : SpanV2Adapter :=
  let span := v2StartSpan operationName opts
  { Span := span }

/-- The function `StartSpanFromContext` of `context.go`.  The v2 call
`v2.StartSpanFromContext(ctx, operationName, opts...)` is the parameter; its span is
wrapped in a `SpanV2Adapter`, which is then stored in the returned context. -/
def StartSpanFromContext {Opt : Type}
    (v2StartSpanFromContext : Option Context → String → List Opt → Option V2Span × Option Context)
    (ctx : Option Context) (operationName : String) (opts : List Opt) :
    Except Panic (SpanV2Adapter × Context) :=
  let (span, ctx1) := v2StartSpanFromContext ctx operationName opts
  let sp : SpanV2Adapter := { Span := span }
  match ContextWithSpan ctx1 (some (.V2Adapter sp)) with
  | .error e => .error e
  | .ok ctx2 => .ok (sp, ctx2)

/-! ## Go maps -/

/-- A Go `map[string]string`: `none` is the nil map, `some es` a map with the entries
`es`, each key at most once. -/
abbrev GoMap := Option (List (String × String))

/-- The entries of a map after `m[k] = v` on a non-nil map: the entry of `k` is replaced,
or a new entry is added. -/
def setEntry (k v : String) : List (String × String) → List (String × String)
  | [] => [(k, v)]
  | (k1, v1) :: rest => if k1 = k then (k, v) :: rest else (k1, v1) :: setEntry k v rest

/-- The lookup `v, ok := m[k]`; a nil map has no entries. -/
def GoMap.get (m : GoMap) (k : String) : Option String :=
  match m with
  | none => none
  | some es => (es.find? fun e => e.1 = k).map Prod.snd

/-- The assignment `m[k] = v`, which panics with "assignment to entry in nil map" on a
nil map. -/
def GoMap.assign (m : GoMap) (k v : String) : Except Panic GoMap :=
  match m with
  | none => .error .nilMapAssignment
  | some es => .ok (some (setEntry k v es))

/-! ## `ddtrace/tracer/option.go` -/

/-- The struct `UserMonitoringConfig` of `option.go`. -/
structure UserMonitoringConfig where
  PropagateID : Bool
  Email : String
  Name : String
  Role : String
  SessionID : String
  Scope : String
  Metadata : GoMap
  deriving DecidableEq, Repr

/-- The zero value of `UserMonitoringConfig`; its `Metadata` map is nil. -/
def UserMonitoringConfig.zero : UserMonitoringConfig :=
  { PropagateID := false, Email := "", Name := "", Role := "", SessionID := "", Scope := "",
    Metadata := none }

/-- The type `UserMonitoringOption` of `option.go`: `func(*UserMonitoringConfig)`, as a
function from the configuration before the call to the configuration after it. -/
abbrev UserMonitoringOption := UserMonitoringConfig → Except Panic UserMonitoringConfig

/-- The function `WithUserMetadata` of `option.go`: `cfg.Metadata[key] = value`. -/
def WithUserMetadata (key value : String) : UserMonitoringOption := fun cfg =>
  match cfg.Metadata.assign key value with
  | .error e => .error e
  | .ok m => .ok { cfg with Metadata := m }

/-- The function `WithUserEmail` of `option.go`: `cfg.Email = email`. -/
def WithUserEmail (email : String) : UserMonitoringOption := fun cfg =>
  .ok { cfg with Email := email }

/-- Applying options one after the other, as `SetUser(s, id, opts...)` passes them on;
the first panic ends the run. -/
def applyUserOptions : List UserMonitoringOption → UserMonitoringOption
  | [], cfg => .ok cfg
  | o :: rest, cfg =>
    match o cfg with
    | .error e => .error e
    | .ok cfg1 => applyUserOptions rest cfg1

/-- The options `WithUserMetadata(k, v)` for a list of key/value pairs, in order. -/
def userMetadataOptions (kvs : List (String × String)) : List UserMonitoringOption :=
  kvs.map fun kv => WithUserMetadata kv.1 kv.2

/-- The kinds of sampling rule, `SamplingRuleType` of `rules_sampler.go`: rules for
traces and rules for single spans. -/
inductive SamplingRuleType where
  | SamplingRuleTrace : SamplingRuleType
  | SamplingRuleSpan : SamplingRuleType
  deriving DecidableEq, Repr

/-- Modelled from the spec: the struct `v2.SamplingRule`, of which `SamplingRule` is an
alias, is declared in `v2/ddtrace/tracer`, which is not among the sources.  Following the
data model (section 3), a rule holds a service glob, an operation-name glob, a resource
glob, a tag-value glob mapping, a sample rate, a max-per-second limit and its kind.
Rates are `float64` in the code; the finite ones are rational numbers. -/
structure SamplingRule where
  Service : String
  Name : String
  Resource : String
  Tags : List (String × String)
  Rate : ℚ
  MaxPerSecond : ℚ
  ruleType : SamplingRuleType
  deriving DecidableEq, Repr

/-- The v2 start options that `option.go` returns, by the v2 constructor that builds
them. -/
inductive StartOption where
  | WithDebugStack (enabled : Bool) : StartOption
  | WithDebugMode (enabled : Bool) : StartOption
  | WithLambdaMode (enabled : Bool) : StartOption
  | WithSamplingRules (rules : List SamplingRule) : StartOption
  deriving DecidableEq, Repr

/-- The function `WithDebugStack` of `option.go`, whose body is
`return WithDebugStack(enabled)`: a call of itself.  `fuel` bounds the depth of the call
stack; `none` means the stack was exhausted before any call returned. -/
def WithDebugStack : Nat → Bool → Option StartOption
  | 0, _ => none
  | fuel + 1, enabled => WithDebugStack fuel enabled

/-- The function `WithDebugMode` of `option.go`: `return v2.WithDebugMode(enabled)`. -/
def WithDebugMode (enabled : Bool) : StartOption := .WithDebugMode enabled

/-- The function `WithLambdaMode` of `option.go`: `return v2.WithLambdaMode(enabled)`. -/
def WithLambdaMode (enabled : Bool) : StartOption := .WithLambdaMode enabled

/-! ## `ddtrace/tracer/tracer.go`: `SetUser` -/

/-- A call `sp.SetUser(id, opts...)` that reached a span. -/
structure SetUserCall where
  receiver : Span
  id : String
  opts : List UserMonitoringOption

/-- The function `SetUser` of `tracer.go`, as the call it makes on the span: `none` when
it returns without calling anything (`s == nil`, or the type assertion of `s` to
`interface { SetUser(string, ...UserMonitoringOption) }` fails). -/
def SetUser (s : Option Span) (id : String) (opts : List UserMonitoringOption) :
    Option SetUserCall :=
  match s with
  | none => none
  | some sp =>
    if implements sp.methodSet ["SetUser"] then
      some { receiver := sp, id := id, opts := opts }
    else none

/-! ## `ddtrace/tracer/sqlcomment.go` -/

/-- Go `error` values returned on the paths below. -/
inductive GoError where
  | ErrSpanContextNotFound : GoError
  | other (msg : String) : GoError
  deriving DecidableEq, Repr

/-- Modelled from the spec: the v2 struct `tracer.SQLCommentCarrier` is declared in
`v2/ddtrace/tracer`, which is not among the sources.  Its fields are the four that
`sqlcomment.go` fills in: `Query`, `Mode`, `DBServiceName` and `SpanID`. -/
structure V2SQLCommentCarrier where
  Query : String
  Mode : String
  DBServiceName : String
  SpanID : Nat
  deriving DecidableEq, Repr

/-- The struct `SQLCommentCarrier` of `sqlcomment.go`.  The field `carrier` is a pointer to
a v2 carrier, nil until the first call of `Inject` or `Extract`. -/
structure SQLCommentCarrier where
  Query : String
  Mode : String
  DBServiceName : String
  SpanID : Nat
  carrier : Option V2SQLCommentCarrier
  deriving DecidableEq, Repr

/-- The constant `DBMPropagationModeService`. -/
def DBMPropagationModeService : String := "service"

/-- The constant `DBMPropagationModeFull`. -/
def DBMPropagationModeFull : String := "full"

/-- The constant `sqlCommentTraceParent`. -/
def sqlCommentTraceParent : String := "traceparent"

/-- The v2 carrier that `Inject` and `Extract` work on: the one stored in `c.carrier`, or
a new one built from the fields of `c` when `c.carrier == nil`. -/
def SQLCommentCarrier.inner (c : SQLCommentCarrier) : V2SQLCommentCarrier :=
  match c.carrier with
  | some k => k
  | none => { Query := c.Query, Mode := c.Mode, DBServiceName := c.DBServiceName,
              SpanID := c.SpanID }

/-- The method `(*SQLCommentCarrier).Inject` of `sqlcomment.go`.  The v2 call
`c.carrier.Inject(tracer.FromGenericCtx(x))` is the parameter `v2Inject`, from the v2
carrier and the adapter `x` to the v2 carrier after the call and the error.  The result
is the receiver after the call and the error. -/
def SQLCommentCarrier.Inject
    (v2Inject : V2SQLCommentCarrier → SpanContextV1Adapter → V2SQLCommentCarrier × Option GoError)
    (c : SQLCommentCarrier) (spanCtx : Option SpanContext) :
    SQLCommentCarrier × Option GoError :=
  let r := v2Inject c.inner { Ctx := spanCtx }
  ({ c with carrier := some r.1 }, r.2)

/-- The method `(*SQLCommentCarrier).Extract` of `sqlcomment.go`.  The v2 call
`c.carrier.Extract()` is the parameter `v2Extract`, from the v2 carrier to the v2 carrier
after the call, the context and the error.  The result is the receiver after the call,
the returned `ddtrace.SpanContext` and the error. -/
def SQLCommentCarrier.Extract
    (v2Extract : V2SQLCommentCarrier → V2SQLCommentCarrier × Option V2SpanContext × Option GoError)
    (c : SQLCommentCarrier) : SQLCommentCarrier × Option SpanContext × Option GoError :=
  let r := v2Extract c.inner
  let c1 := { c with carrier := some r.1 }
  match r.2.2 with
  | some err => (c1, none, some err)
  | none => (c1, some (.V2Adapter { Ctx := r.2.1 }), none)

/-! ### The v2 carrier's `Extract`, from the specification -/

/-- The value of a hexadecimal digit. -/
def hexDigit (c : Char) : Option Nat :=
  if '0' ≤ c ∧ c ≤ '9' then some (c.toNat - '0'.toNat)
  else if 'a' ≤ c ∧ c ≤ 'f' then some (c.toNat - 'a'.toNat + 10)
  else if 'A' ≤ c ∧ c ≤ 'F' then some (c.toNat - 'A'.toNat + 10)
  else none

/-- The number written by a non-empty string of hexadecimal digits. -/
def parseHex (cs : List Char) : Option Nat :=
  if cs.isEmpty then none
  else cs.foldlM (fun acc c => (hexDigit c).map fun d => acc * 16 + d) 0

/-- Percent-decoding of a value: `%XY` stands for the character with code `XY`; a `%`
that is not followed by two hexadecimal digits makes the value malformed. -/
def percentDecode : List Char → Option (List Char)
  | [] => some []
  | c :: rest =>
    if c = '%' then
      match rest with
      | a :: b :: rest2 =>
        match hexDigit a, hexDigit b, percentDecode rest2 with
        | some x, some y, some r => some (Char.ofNat (16 * x + y) :: r)
        | _, _, _ => none
      | _ => none
    else (percentDecode rest).map fun r => c :: r

/-- The text of a comment up to its closing `*/`; `none` when the comment is not closed
(truncated). -/
def commentBody : List Char → Option (List Char)
  | [] => none
  | c :: rest =>
    if c = '*' ∧ rest.head? = some '/' then some []
    else (commentBody rest).map fun r => c :: r

/-- The text inside the leading `/* ... */` block of a query, if the query starts with
one. -/
def leadingComment (q : List Char) : Option (List Char) :=
  match q with
  | a :: b :: rest => if a = '/' ∧ b = '*' then commentBody rest else none
  | _ => none

/-- The single quote character. -/
def quoteChar : Char := Char.ofNat 39

/-- One `key='value'` item of a comment, with surrounding blanks dropped and the value
percent-decoded; `none` when the item is malformed. -/
def parseTag (item : List Char) : Option (String × String) :=
  let item := (item.dropWhile (· = ' ')).reverse.dropWhile (· = ' ') |>.reverse
  let key := item.takeWhile (· ≠ '=')
  match item.dropWhile (· ≠ '=') with
  | _ :: q :: rest =>
    if q = quoteChar ∧ rest.getLast? = some quoteChar then
      (percentDecode rest.dropLast).map fun v => (String.mk key, String.mk v)
    else none
  | _ => none

/-- The well-formed `key='value'` items of a comment, which are separated by commas. -/
def extractCommentTags (cmt : List Char) : List (String × String) :=
  (cmt.splitOn ',').filterMap parseTag

/-- A W3C `traceparent` value `version-traceid(32 hex)-spanid(16 hex)-flags(2 hex)`
(section 6), decoded to the high and low 64 bits of the trace id, the span id and the
sampling priority carried by the flags. -/
def decodeTraceParent (v : List Char) : Option V2SpanContext :=
  match v.splitOn '-' with
  | [version, traceID, spanID, flags] =>
    if version.length = 2 ∧ traceID.length = 32 ∧ spanID.length = 16 ∧ flags.length = 2 then
      match parseHex version, parseHex (traceID.take 16), parseHex (traceID.drop 16),
          parseHex spanID, parseHex flags with
      | some _, some hi, some lo, some sid, some fl =>
        some { traceIDUpper := hi, traceIDLower := lo, spanID := sid,
               priority := some (Int.ofNat (fl % 2)), baggage := [] }
      | _, _, _, _, _ => none
    else none
  | _ => none

/-- Modelled from the spec: the v2 method `(*SQLCommentCarrier).Extract` is in
`v2/ddtrace/tracer`, which is not among the sources.  Following sections 4.3, 6 and 7,
extraction is the inverse parse of the leading `/* key='value',... */` block: the
`traceparent` item gives the context, and a query with no such block, a truncated
comment, or a missing or malformed `traceparent` yields "no context found" as an error.
The carrier is left as it is. -/
def V2SQLCommentCarrier.Extract (c : V2SQLCommentCarrier) :
    V2SQLCommentCarrier × Option V2SpanContext × Option GoError :=
  match leadingComment c.Query.toList with
  | none => (c, none, some .ErrSpanContextNotFound)
  | some cmt =>
    match (extractCommentTags cmt).find? fun t => t.1 = sqlCommentTraceParent with
    | none => (c, none, some .ErrSpanContextNotFound)
    | some t =>
      match decodeTraceParent t.2.toList with
      | none => (c, none, some .ErrSpanContextNotFound)
      | some ctx => (c, some ctx, none)

/-! ## `ddtrace/tracer/sampler.go` -/

/-- The values of the v2 interface `v2.RateSampler` that `sampler.go` holds, by the v2
calls that produce them: the result of `v2.NewRateSampler(rate)`, and a sampler after a
call of its method `SetRate(rate)`.  The v2 rate sampler is not among the sources, and
what its methods return is not part of the model: where the code calls them, they are
parameters.  Rates are `float64` in the code; the finite ones are rational numbers. -/
inductive V2RateSampler where
  | NewRateSampler (rate : ℚ) : V2RateSampler
  | SetRate (s : V2RateSampler) (rate : ℚ) : V2RateSampler
  deriving DecidableEq, Repr

/-- The struct `rateSamplerV2Adapter` of `sampler.go`.  The type is unexported and its
values are built by `NewRateSampler` only, so the field `Sampler` is never nil. -/
structure rateSamplerV2Adapter where
  Sampler : V2RateSampler
  deriving DecidableEq, Repr

/-- The method `(*rateSamplerV2Adapter).Rate`: `return rsa.Sampler.Rate()`.  The v2 call
`rsa.Sampler.Rate` is the parameter `v2Rate`. -/
def rateSamplerV2Adapter.Rate (v2Rate : V2RateSampler → ℚ) (rsa : rateSamplerV2Adapter) : ℚ :=
  v2Rate rsa.Sampler

/-- The method `(*rateSamplerV2Adapter).SetRate`: `rsa.Sampler.SetRate(rate)`; the result
is the receiver after the call, which holds the v2 sampler after its `SetRate`. -/
def rateSamplerV2Adapter.SetRate (rsa : rateSamplerV2Adapter) (rate : ℚ) :
    rateSamplerV2Adapter :=
  { Sampler := rsa.Sampler.SetRate rate }

/-- The type assertion `span.(*internal.SpanV2Adapter)` in its single-value form, which
panics when `span` is nil or of another dynamic type. -/
def Span.assertSpanV2Adapter : Option Span → Except Panic SpanV2Adapter
  | some (.V2Adapter sa) => .ok sa
  | _ => .error .typeAssertion

/-- The method `(*rateSamplerV2Adapter).Sample` of `sampler.go`:
`sp := span.(*internal.SpanV2Adapter); return rsa.Sampler.Sample(sp.Span)`.  The v2 call
`rsa.Sampler.Sample` is the parameter `v2Sample`. -/
def rateSamplerV2Adapter.Sample (v2Sample : V2RateSampler → Option V2Span → Bool)
    (rsa : rateSamplerV2Adapter) (span : Option Span) : Except Panic Bool :=
  match Span.assertSpanV2Adapter span with
  | .error e => .error e
  | .ok sp => .ok (v2Sample rsa.Sampler sp.Span)

/-- The function `NewRateSampler` of `sampler.go`:
`return &rateSamplerV2Adapter{Sampler: v2.NewRateSampler(rate)}`. -/
def NewRateSampler (rate : ℚ) : rateSamplerV2Adapter :=
  { Sampler := V2RateSampler.NewRateSampler rate }

/-- The function `NewAllSampler` of `sampler.go`: `return NewRateSampler(1)`. -/
def NewAllSampler : rateSamplerV2Adapter := NewRateSampler 1

/-- A non-nil value of interface type `Sampler` of `sampler.go`, by dynamic type: the
adapter returned by `NewRateSampler`, or a value of any other implementing type, given by
an identity and the result of its method `Sample`. -/
inductive Sampler where
  | rateSampler (rsa : rateSamplerV2Adapter) : Sampler
  | custom (id : Nat) (sample : Option Span → Bool) : Sampler

/-- The function `WithSampler` of `option.go`:
`rules := []SamplingRule{}; return v2.WithSamplingRules(rules)`. -/
def WithSampler (_s : Option Sampler) : StartOption :=
  let rules : List SamplingRule := []
  .WithSamplingRules rules

/-- The function `WithSamplingRules` of `option.go`:
`return v2.WithSamplingRules(rules)`. -/
def WithSamplingRules (rules : List SamplingRule) : StartOption := .WithSamplingRules rules

/-! ## Go maps with other key and value types -/

/-- The entries of a map after `m[k] = v`: the entry of `k` is replaced, or a new entry is
added.  The order of the entries stands for the order in which a `range` loop visits
them, which Go leaves open; every order is the entry list of some map. -/
def entrySet {κ ν : Type} [DecidableEq κ] (k : κ) (v : ν) : List (κ × ν) → List (κ × ν)
  | [] => [(k, v)]
  | (k1, v1) :: rest => if k1 = k then (k, v) :: rest else (k1, v1) :: entrySet k v rest

/-- The lookup `v, ok := m[k]` on the entries of a map. -/
def entryGet {κ ν : Type} [DecidableEq κ] (k : κ) : List (κ × ν) → Option ν
  | [] => none
  | (k1, v1) :: rest => if k1 = k then some v1 else entryGet k rest

/-- The entries of a map after `delete(m, k)`. -/
def entryDelete {κ ν : Type} [DecidableEq κ] (k : κ) (es : List (κ × ν)) : List (κ × ν) :=
  es.filter fun e => e.1 ≠ k

/-! ## `ddtrace/tracer/textmap.go` -/

/-- The handler passed to `ForeachKey`, `func(key, val string) error`.  A Go closure may
keep state between its calls; `σ` is the type of that state, and a call maps the state
before it to the state after it and the returned error. -/
abbrev Handler (σ : Type) := σ → String → String → σ × Option GoError

/-- The outcome of a `ForeachKey` run: the state of the handler after the run, the
`(key, val)` pairs the handler was invoked on, in order, and the returned error. -/
structure Visit (σ : Type) where
  state : σ
  calls : List (String × String)
  err : Option GoError

/-- The loop `for k, v := range c` with the body
`if err := handler(k, v); err != nil { return err }`, followed by `return nil`, over the
entries in the order of the iteration. -/
def foreachPairs {σ : Type} (handler : Handler σ) : List (String × String) → σ → Visit σ
  | [], s => { state := s, calls := [], err := none }
  | (k, v) :: rest, s =>
    match handler s k v with
    | (s1, some err) => { state := s1, calls := [(k, v)], err := some err }
    | (s1, none) =>
      let r := foreachPairs handler rest s1
      { state := r.state, calls := (k, v) :: r.calls, err := r.err }

/-- The type `TextMapCarrier` of `textmap.go`: `map[string]string`. -/
abbrev TextMapCarrier := GoMap

/-- The entries of a map; a nil map has none. -/
def GoMap.entries (m : GoMap) : List (String × String) :=
  match m with
  | none => []
  | some es => es

/-- The method `TextMapCarrier.Set` of `textmap.go`: `c[key] = val`. -/
def TextMapCarrier.Set (c : TextMapCarrier) (key val : String) : Except Panic TextMapCarrier :=
  GoMap.assign c key val

/-- The method `TextMapCarrier.ForeachKey` of `textmap.go`. -/
def TextMapCarrier.ForeachKey {σ : Type} (c : TextMapCarrier) (handler : Handler σ) (s : σ) :
    Visit σ :=
  foreachPairs handler (GoMap.entries c) s

/-- The handler that records the pairs it is called with and never fails, as the handler
`got[k] = v; return nil` of the tests. -/
def recordingHandler : Handler (List (String × String)) :=
  fun seen k v => (seen ++ [(k, v)], none)

/-! ### `net/http` headers -/

/-- The standard library's `http.Header`, a `map[string][]string`: `none` is the nil
map. -/
abbrev Header := Option (List (String × List String))

/-- The standard library's table of bytes allowed in a header field name: letters,
digits and the token punctuation. -/
def validHeaderFieldByte (c : Char) : Bool :=
  c.isAlphanum || "!#$%&*+-.^_|~".toList.contains c || c = Char.ofNat 39 || c = Char.ofNat 96

/-- The canonical casing of a header name: upper case for the first letter and for every
letter after a hyphen, lower case for the others. -/
def canonicalCase : Bool → List Char → List Char
  | _, [] => []
  | upper, c :: rest =>
    (if upper then c.toUpper else c.toLower) :: canonicalCase (c = '-') rest

/-- The standard library's `textproto.CanonicalMIMEHeaderKey`: a name that consists of
valid header field bytes is put in canonical casing, any other string is returned
unchanged. -/
def CanonicalMIMEHeaderKey (s : String) : String :=
  if s.toList.all validHeaderFieldByte then String.mk (canonicalCase true s.toList) else s

/-- The standard library's `Header.Set(key, value)`:
`h[CanonicalMIMEHeaderKey(key)] = []string{value}`, a panic on a nil map. -/
def Header.Set (h : Header) (key value : String) : Except Panic Header :=
  match h with
  | none => .error .nilMapAssignment
  | some es => .ok (some (entrySet (CanonicalMIMEHeaderKey key) [value] es))

/-- The map lookup `h[key]` of a header, without canonicalisation; nil when the key is
absent. -/
def Header.index (h : Header) (key : String) : List String :=
  match h with
  | none => []
  | some es => (entryGet key es).getD []

/-- The standard library's `Header.Values(key)`: `h[CanonicalMIMEHeaderKey(key)]`. -/
def Header.Values (h : Header) (key : String) : List String :=
  Header.index h (CanonicalMIMEHeaderKey key)

/-- The standard library's `Header.Get(key)`: the first value stored under the canonical
form of `key`, or the empty string when there is none. -/
def Header.Get (h : Header) (key : String) : String :=
  (Header.Values h key).headD ""

/-- The entries of a header; a nil header has none. -/
def Header.entries (h : Header) : List (String × List String) :=
  match h with
  | none => []
  | some es => es

/-- The type `HTTPHeadersCarrier` of `textmap.go`: `http.Header`. -/
abbrev HTTPHeadersCarrier := Header

/-- The method `HTTPHeadersCarrier.Set` of `textmap.go`: `http.Header(c).Set(key, val)`. -/
def HTTPHeadersCarrier.Set (c : HTTPHeadersCarrier) (key val : String) :
    Except Panic HTTPHeadersCarrier :=
  Header.Set c key val

/-- The inner loop `for _, v := range vals` of `HTTPHeadersCarrier.ForeachKey`, with the
body `if err := handler(k, v); err != nil { return err }`. -/
def foreachValues {σ : Type} (handler : Handler σ) (k : String) : List String → σ → Visit σ
  | [], s => { state := s, calls := [], err := none }
  | v :: vals, s =>
    match handler s k v with
    | (s1, some err) => { state := s1, calls := [(k, v)], err := some err }
    | (s1, none) =>
      let r := foreachValues handler k vals s1
      { state := r.state, calls := (k, v) :: r.calls, err := r.err }

/-- The outer loop `for k, vals := range c` of `HTTPHeadersCarrier.ForeachKey`, followed
by `return nil`: an error of the inner loop ends the run. -/
def foreachHeader {σ : Type} (handler : Handler σ) : List (String × List String) → σ → Visit σ
  | [], s => { state := s, calls := [], err := none }
  | (k, vals) :: rest, s =>
    let r := foreachValues handler k vals s
    match r.err with
    | some err => { state := r.state, calls := r.calls, err := some err }
    | none =>
      let r2 := foreachHeader handler rest r.state
      { state := r2.state, calls := r.calls ++ r2.calls, err := r2.err }

/-- The method `HTTPHeadersCarrier.ForeachKey` of `textmap.go`. -/
def HTTPHeadersCarrier.ForeachKey {σ : Type} (c : HTTPHeadersCarrier) (handler : Handler σ)
    (s : σ) : Visit σ :=
  foreachHeader handler (Header.entries c) s

/-- The `(key, value)` pairs of a header in the order of the iteration: for each key in
turn, its values in order. -/
def Header.pairs (h : Header) : List (String × String) :=
  (Header.entries h).flatMap fun e => e.2.map fun v => (e.1, v)

/-! ## `ddtrace/mocktracer/mocktracer.go` -/

/-- Modelled from the spec: the mock tracer's struct `Span` is declared in the mock
tracer's `mockspan.go` of the v2 module, which is not among the sources.  A mock span
wraps the `*tracer.Span` it was made from. -/
structure mocktracer.Span where
  sp : Option V2Span
  deriving DecidableEq, Repr

/-- Modelled from the spec: the function `MockSpan(s)`, not among the sources, wraps a
`*tracer.Span` as a mock span. -/
def mocktracer.MockSpan (s : Option V2Span) : mocktracer.Span := { sp := s }

/-- The struct `mocktracer` of `mocktracer.go`: the slice `finishedSpans` (`none` when
nil) and the map `openSpans` from span ids to mock spans.  The type is unexported and its
values are built by `newMockTracer` only, which makes the map, so the map is never nil. -/
structure mocktracer where
  finishedSpans : Option (List mocktracer.Span)
  openSpans : List (Nat × mocktracer.Span)
  deriving DecidableEq, Repr

/-- The function `newMockTracer` of `mocktracer.go`. -/
def newMockTracer : mocktracer := { finishedSpans := none, openSpans := [] }

/-- The span id `s.Context().SpanID()` of a `*tracer.Span`. -/
def spanIDOf (s : Option V2Span) : Nat := V2SpanContext.SpanID (V2Span.Context s)

/-- The method `(*mocktracer).StartSpan` of `mocktracer.go`.  The function `newSpan` is
not among the sources; `span` is the span that `newSpan(operationName, &cfg)` returned
in this call.  The result is the tracer after the call and the returned span. -/
def mocktracer.StartSpan (t : mocktracer) (span : V2Span) : mocktracer × V2Span :=
  ({ t with openSpans := entrySet (spanIDOf (some span)) (MockSpan (some span)) t.openSpans },
   span)

/-- The method `(*mocktracer).addFinishedSpan` of `mocktracer.go`. -/
def mocktracer.addFinishedSpan (t : mocktracer) (s : Option V2Span) : mocktracer :=
  let openSpans := entryDelete (spanIDOf s) t.openSpans
  let finishedSpans :=
    match t.finishedSpans with
    | none => []
    | some fs => fs
  { finishedSpans := some (finishedSpans ++ [MockSpan s]), openSpans := openSpans }

/-- The method `(*mocktracer).FinishSpan` of `mocktracer.go`: `t.addFinishedSpan(s)`. -/
def mocktracer.FinishSpan (t : mocktracer) (s : Option V2Span) : mocktracer :=
  t.addFinishedSpan s

/-- The method `(*mocktracer).OpenSpans` of `mocktracer.go`: the values of the map
`openSpans`, collected by a `range` loop. -/
def mocktracer.OpenSpans (t : mocktracer) : List mocktracer.Span :=
  t.openSpans.map Prod.snd

/-- The method `(*mocktracer).FinishedSpans` of `mocktracer.go`:
`return t.finishedSpans`. -/
def mocktracer.FinishedSpans (t : mocktracer) : Option (List mocktracer.Span) :=
  t.finishedSpans

/-- The method `(*mocktracer).Reset` of `mocktracer.go`. -/
def mocktracer.Reset (_t : mocktracer) : mocktracer :=
  { finishedSpans := none, openSpans := [] }

/-- The elements of a slice; a nil slice has none. -/
def sliceElems {α : Type} : Option (List α) → List α
  | none => []
  | some l => l

/-- A call on the mock tracer: `StartSpan`, with the span that was created in the call,
or `FinishSpan(s)` of a span. -/
inductive MockCall where
  | StartSpan (span : V2Span) : MockCall
  | FinishSpan (s : V2Span) : MockCall
  deriving DecidableEq, Repr

/-- The spans that occur in a sequence of calls. -/
def MockCall.span : MockCall → V2Span
  | .StartSpan s => s
  | .FinishSpan s => s

/-- The effect of one call on the mock tracer. -/
def mocktracer.step (t : mocktracer) : MockCall → mocktracer
  | .StartSpan span => (t.StartSpan span).1
  | .FinishSpan s => t.FinishSpan (some s)

/-- The effect of a sequence of calls on the mock tracer, first call first. -/
def mocktracer.run (t : mocktracer) (calls : List MockCall) : mocktracer :=
  calls.foldl mocktracer.step t

/-- The specification's notion of an open span, in its own words: after the calls, the
span `s` "has been started and not yet finished" when some call started it and no later
call finished it. -/
def startedNotFinished : List MockCall → V2Span → Bool
  | [], _ => false
  | .StartSpan s1 :: rest, s =>
    (decide (s1 = s) && !rest.contains (.FinishSpan s)) || startedNotFinished rest s
  | .FinishSpan _ :: rest, s => startedNotFinished rest s

/-- A span with the given operation name whose span id and trace id are `id`, as
`StartSpan(name, WithSpanID(id))` creates it. -/
def spanWithID (name : String) (id : Nat) : V2Span :=
  { name := name,
    context := { traceIDUpper := 0, traceIDLower := id, spanID := id, priority := none,
                 baggage := [] } }

/-! ## `ddtrace/tracer/spancontext.go`: the trace buffer -/

/-- The variable `traceStartSize` of `spancontext.go`. -/
def traceStartSize : Nat := 10

/-- The variable `traceMaxSize` of `spancontext.go`: `int(1e5)`, the maximum number of
spans kept in memory for a single trace. -/
def traceMaxSize : Nat := 100000

/-- Modelled from the spec: the trace buffer is in `v2/ddtrace/tracer`, which is not among
the sources; `spancontext.go` only declares its size limits.  Following sections 3 and
4.1, a trace is the ordered sequence of its spans (insertion order), the count of
finished spans, the capacity and the dropped flag; next to them the model keeps what the
buffer has handed to the Dispatcher and the two diagnostic counters.  The optional
partial-flush mode is off. -/
structure TraceBuffer where
  spans : List V2Span
  finished : Nat
  capacity : Nat
  dropped : Bool
  flushed : List (List V2Span)
  droppedCount : Nat
  ignoredFinishes : Nat
  deriving DecidableEq, Repr

/-- Modelled from the spec: the buffer of a new trace with the given capacity
(`traceMaxSize` by default) holds no span, is not dropped and has flushed nothing. -/
def TraceBuffer.new (capacity : Nat) : TraceBuffer :=
  { spans := [], finished := 0, capacity := capacity, dropped := false, flushed := [],
    droppedCount := 0, ignoredFinishes := 0 }

/-- Modelled from the spec: `Register(span)` of section 4.1.  It appends the span to the
sequence of the trace; if appending would exceed the capacity, the trace is marked
dropped, the registered spans are discarded and the diagnostic counter is incremented;
for a dropped trace no further span is retained. -/
def TraceBuffer.Register (t : TraceBuffer) (span : V2Span) : TraceBuffer :=
  if t.dropped then t
  else if t.capacity < t.spans.length + 1 then
    { t with dropped := true, spans := [], droppedCount := t.droppedCount + 1 }
  else { t with spans := t.spans ++ [span] }

/-- Modelled from the spec: `MarkFinished(spanID)` of section 4.1.  A notification for a
span id that is not registered is counted and ignored.  Otherwise the finished counter is
incremented, and if it equals the length of the sequence and the trace was not dropped,
the trace is handed to the Dispatcher, once. -/
def TraceBuffer.MarkFinished (t : TraceBuffer) (spanID : Nat) : TraceBuffer :=
  if (t.spans.map fun s => spanIDOf (some s)).contains spanID then
    let t1 := { t with finished := t.finished + 1 }
    if t1.finished = t1.spans.length ∧ t1.dropped = false ∧ t1.flushed = [] then
      { t1 with flushed := [t1.spans] }
    else t1
  else { t with ignoredFinishes := t.ignoredFinishes + 1 }

/-- An operation on the buffer of a trace. -/
inductive TraceOp where
  | Register (span : V2Span) : TraceOp
  | MarkFinished (spanID : Nat) : TraceOp
  deriving DecidableEq, Repr

/-- The effect of one operation on the buffer. -/
def TraceBuffer.step (t : TraceBuffer) : TraceOp → TraceBuffer
  | .Register span => t.Register span
  | .MarkFinished spanID => t.MarkFinished spanID

/-- The effect of a sequence of operations on the buffer, first operation first. -/
def TraceBuffer.run (t : TraceBuffer) (ops : List TraceOp) : TraceBuffer :=
  ops.foldl TraceBuffer.step t

/-- The number of spans added to the trace by a sequence of operations. -/
def spansAdded : List TraceOp → Nat
  | [] => 0
  | .Register _ :: rest => spansAdded rest + 1
  | .MarkFinished _ :: rest => spansAdded rest

/-! ## `ddtrace/tracer/rules_sampler.go` -/

/-- The struct `v2.Rule`, by the fields that `rules_sampler.go` fills in: the three globs,
the rate, the tag globs (a `map[string]string`) and the limit per second.  Fields that a
constructor leaves out have their zero value. -/
structure Rule where
  ServiceGlob : String
  NameGlob : String
  ResourceGlob : String
  Rate : ℚ
  Tags : GoMap
  MaxPerSecond : ℚ
  deriving DecidableEq, Repr

/-- The zero value of `v2.Rule`. -/
def Rule.zero : Rule :=
  { ServiceGlob := "", NameGlob := "", ResourceGlob := "", Rate := 0, Tags := none,
    MaxPerSecond := 0 }

/-- Modelled from the spec: the rule that the v2 module, not among the sources, makes of a
`v2.Rule`.  Following sections 3, 4.2 and 7, the globs, the tag globs, the rate and the
limit are kept as given (a rate is not clamped), and an offending rule is disabled, not
rejected. -/
def SamplingRule.ofRule (typ : SamplingRuleType) (r : Rule) : SamplingRule :=
  { Service := r.ServiceGlob, Name := r.NameGlob, Resource := r.ResourceGlob,
    Tags := GoMap.entries r.Tags, Rate := r.Rate, MaxPerSecond := r.MaxPerSecond,
    ruleType := typ }

/-- Modelled from the spec: a rule whose rate is outside `[0, 1]` is treated as disabled
(section 4.2). -/
def SamplingRule.disabled (r : SamplingRule) : Bool := decide (r.Rate < 0) || decide (1 < r.Rate)

/-- Modelled from the spec: `v2.TraceSamplingRules(rules...)`, not among the sources,
returns the trace sampling rules of the given rules, one for each, in order. -/
def v2.TraceSamplingRules (rules : List Rule) : List SamplingRule :=
  rules.map (SamplingRule.ofRule .SamplingRuleTrace)

/-- Modelled from the spec: `v2.SpanSamplingRules(rules...)`, not among the sources,
returns the span sampling rules of the given rules, one for each, in order. -/
def v2.SpanSamplingRules (rules : List Rule) : List SamplingRule :=
  rules.map (SamplingRule.ofRule .SamplingRuleSpan)

/-- The index expression `r[0]` on a slice, which panics with "index out of range" on an
empty slice. -/
def index0 {α : Type} : List α → Except Panic α
  | [] => .error .indexOutOfRange
  | x :: _ => .ok x

/-- The function `ServiceRule` of `rules_sampler.go`. -/
def ServiceRule (service : String) (rate : ℚ) : Except Panic SamplingRule :=
  let r := v2.TraceSamplingRules [{ Rule.zero with ServiceGlob := service, Rate := rate }]
  index0 r

/-- The function `NameRule` of `rules_sampler.go`. -/
def NameRule (name : String) (rate : ℚ) : Except Panic SamplingRule :=
  let r := v2.TraceSamplingRules [{ Rule.zero with NameGlob := name, Rate := rate }]
  index0 r

/-- The function `NameServiceRule` of `rules_sampler.go`. -/
def NameServiceRule (name service : String) (rate : ℚ) : Except Panic SamplingRule :=
  let r := v2.TraceSamplingRules
    [{ Rule.zero with ServiceGlob := service, NameGlob := name, Rate := rate }]
  index0 r

/-- The function `RateRule` of `rules_sampler.go`: `SamplingRule{Rate: rate}`. -/
def RateRule (rate : ℚ) : SamplingRule :=
  { Service := "", Name := "", Resource := "", Tags := [], Rate := rate, MaxPerSecond := 0,
    ruleType := .SamplingRuleTrace }

/-- The standard library's `(*regexp.Regexp).String()` on a `*regexp.Regexp`, which is
`none` when nil and otherwise carries the source text of the expression: `return re.expr`,
a nil dereference for a nil pointer. -/
def Regexp.String : Option String → Except Panic String
  | none => .error .nilDereference
  | some expr => .ok expr

/-- The loop `for k, v := range tags { converted[k] = v.String() }` of
`TagsResourceRule`. -/
def convertTags : List (String × Option String) → List (String × String) →
    Except Panic (List (String × String))
  | [], converted => .ok converted
  | (k, v) :: rest, converted =>
    match Regexp.String v with
    | .error e => .error e
    | .ok str => convertTags rest (setEntry k str converted)

/-- The function `TagsResourceRule` of `rules_sampler.go`; `tags` is a
`map[string]*regexp.Regexp`, `none` when nil. -/
def TagsResourceRule (tags : Option (List (String × Option String)))
    (resource name service : String) (rate : ℚ) : Except Panic SamplingRule :=
  match convertTags (tags.getD []) [] with
  | .error e => .error e
  | .ok converted =>
    let r := v2.TraceSamplingRules
      [{ Rule.zero with ServiceGlob := service, NameGlob := name, ResourceGlob := resource,
                        Rate := rate, Tags := some converted }]
    index0 r

/-- The function `SpanTagsResourceRule` of `rules_sampler.go`. -/
def SpanTagsResourceRule (tags : GoMap) (resource name service : String) (rate : ℚ) :
    Except Panic SamplingRule :=
  let r := v2.SpanSamplingRules
    [{ Rule.zero with ServiceGlob := service, NameGlob := name, ResourceGlob := resource,
                      Rate := rate, Tags := tags }]
  index0 r

/-- The function `SpanNameServiceRule` of `rules_sampler.go`. -/
def SpanNameServiceRule (name service : String) (rate : ℚ) : Except Panic SamplingRule :=
  let r := v2.SpanSamplingRules
    [{ Rule.zero with ServiceGlob := service, NameGlob := name, Rate := rate,
                      MaxPerSecond := 0 }]
  index0 r

/-- The function `SpanNameServiceMPSRule` of `rules_sampler.go`. -/
def SpanNameServiceMPSRule (name service : String) (rate limit : ℚ) :
    Except Panic SamplingRule :=
  let r := v2.SpanSamplingRules
    [{ Rule.zero with ServiceGlob := service, NameGlob := name, Rate := rate,
                      MaxPerSecond := limit }]
  index0 r

/-! ## `ddtrace/tracer/option.go`: `Tag` and `setHeaderTags` -/

/-- Modelled from the spec: the struct `StartSpanConfig` is declared in the v2 module,
which is not among the sources.  Of its fields the model keeps the tag mapping `Tags`, a
`map[string]interface{}` that is `none` when nil, and the span id; `ν` is the type of the
tag values. -/
structure StartSpanConfig (ν : Type) where
  Tags : Option (List (String × ν))
  SpanID : Nat

/-- The lookup `v, ok := cfg.Tags[k]`; a nil map has no entries. -/
def StartSpanConfig.tag {ν : Type} (cfg : StartSpanConfig ν) (k : String) : Option ν :=
  match cfg.Tags with
  | none => none
  | some es => entryGet k es

/-- The function `Tag` of `option.go`, as the effect of the returned option on the
configuration: `if cfg.Tags == nil { cfg.Tags = map[string]interface{}{} }` followed by
`cfg.Tags[k] = v`. -/
def Tag {ν : Type} (k : String) (v : ν) (cfg : StartSpanConfig ν) : StartSpanConfig ν :=
  let cfg1 : StartSpanConfig ν :=
    match cfg.Tags with
    | none => { cfg with Tags := some [] }
    | some _ => cfg
  { cfg1 with Tags := some (entrySet k v (cfg1.Tags.getD [])) }

/-- Modelled from the spec: the global header-tag table of the package `globalconfig`,
which is not among the sources: a table of (header, tag) entries with one entry for each
header. -/
abbrev HeaderTagTable := List (String × String)

/-- Modelled from the spec: `globalconfig.ClearHeaderTags()`, not among the sources,
resets the global table: it leaves the table empty. -/
def globalconfig.ClearHeaderTags (_table : HeaderTagTable) : HeaderTagTable := []

/-- Modelled from the spec: `globalconfig.SetHeaderTag(header, tag)`, not among the
sources, registers the entry of `header` with the value `tag` in the global table, in
place of an earlier entry of the same header. -/
def globalconfig.SetHeaderTag (header tag : String) (table : HeaderTagTable) : HeaderTagTable :=
  entrySet header tag table

/-- The standard library's `strings.HasPrefix(s, p)`. -/
def strings.HasPrefix (s p : String) : Bool := p.toList.isPrefixOf s.toList

/-- The function `setHeaderTags` of `option.go`.  The function `normalizer.HeaderTag` is
not among the sources and is the parameter `HeaderTag`; `table` is the global table
before the call.  The result is the global table after the call and the returned
boolean. -/
def setHeaderTags (HeaderTag : String → String × String) (table : HeaderTagTable)
    (headerAsTags : List String) : HeaderTagTable × Bool :=
  let table0 := globalconfig.ClearHeaderTags table
  let table1 := headerAsTags.foldl
    (fun t h =>
      if strings.HasPrefix h "x-datadog-" then t
      else globalconfig.SetHeaderTag (HeaderTag h).1 (HeaderTag h).2 t)
    table0
  (table1, true)

/-- The normalized (header, tag) entries of the elements of a list that do not start with
`x-datadog-`, in the order of the list. -/
def normalizedEntries (HeaderTag : String → String × String) (hs : List String) :
    List (String × String) :=
  (hs.filter fun h => !strings.HasPrefix h "x-datadog-").map HeaderTag

/-- The value that a sequence of writes leaves under a key when the last write wins: the
value of the last entry with that key. -/
def lastWrite {ν : Type} (k : String) : List (String × ν) → Option ν
  | [] => none
  | (k1, v1) :: rest =>
    match lastWrite k rest with
    | some v => some v
    | none => if k1 = k then some v1 else none

/-- An instance of the parameter `HeaderTag` of `setHeaderTags` for elements of the form
`header:tag`: the text before the last colon is the header and the text after it the tag;
an element without a colon is its own header, with the tag `http.request.headers.`
followed by the header.  It serves to evaluate `setHeaderTags` on concrete lists. -/
def headerTagOfLastColon (h : String) : String × String :=
  let cs := h.toList
  let tagRev := cs.reverse.takeWhile fun c => c ≠ ':'
  if tagRev.length = cs.length then (h, "http.request.headers." ++ h)
  else (String.mk (cs.reverse.drop (tagRev.length + 1)).reverse, String.mk tagRev.reverse)

/-! # Theorems -/

/-! ## Helper lemmas -/

theorem SpanContext.TraceID_lt (c : SpanContext) : c.TraceID < 2 ^ 64 := by
  cases c with
  | V2Adapter sca =>
    cases sca with
    | mk Ctx =>
      cases Ctx with
      | none => simp [SpanContext.TraceID, SpanContextV2Adapter.TraceID,
          V2SpanContext.TraceIDLower]
      | some v =>
        simp only [SpanContext.TraceID, SpanContextV2Adapter.TraceID,
          V2SpanContext.TraceIDLower, uint64Size]
        exact Nat.mod_lt _ (by norm_num)
  | custom t sid b e =>
    simp only [SpanContext.TraceID, uint64Size]
    exact Nat.mod_lt _ (by norm_num)

theorem Uint64_bigEndianBytes (t : Nat) (h : t < 2 ^ 64) (rest : List Nat) :
    binary.BigEndian.Uint64 (bigEndianBytes t ++ rest) = t := by
  simp only [binary.BigEndian.Uint64, bigEndianBytes, List.getD_eq_getElem?_getD,
    List.cons_append, List.getElem?_cons_zero, List.getElem?_cons_succ, Option.getD_some]
  norm_num at h ⊢
  omega

theorem GoMap.get_setEntry (k v : String) (es : List (String × String)) (k1 : String) :
    GoMap.get (some (setEntry k v es)) k1 = if k1 = k then some v else GoMap.get (some es) k1 := by
  induction es with
  | nil =>
    by_cases h : k1 = k
    · simp [setEntry, GoMap.get, h]
    · have h2 : ¬ k = k1 := fun e => h e.symm
      simp [setEntry, GoMap.get, h, h2]
  | cons e rest ih =>
    obtain ⟨a, b⟩ := e
    simp only [GoMap.get] at ih ⊢
    by_cases hak : a = k
    · by_cases h : k1 = k
      · simp [setEntry, hak, h]
      · have h2 : ¬ k = k1 := fun e => h e.symm
        simp [setEntry, hak, h, h2]
    · by_cases ha1 : a = k1
      · have h : ¬ k1 = k := fun e => hak (ha1.trans e)
        simp [setEntry, hak, ha1, h]
      · simp [setEntry, hak, ha1, ih]

/-! ## `context.go` -/

/-- C1, as stated, fails for the nil context: `ContextWithSpan(nil, s)` panics inside
`context.WithValue` ("cannot create context from nil parent"), so no context is returned
from which the span could be read back. -/
theorem ContextWithSpan_nil_context_panics :
    ContextWithSpan none (some Span.NoopSpan) = .error Panic.nilParentContext ∧
    ¬ ∃ c, ContextWithSpan none (some Span.NoopSpan) = .ok c ∧
        SpanFromContext (some c) = (some Span.NoopSpan, true) := by
  refine ⟨rfl, ?_⟩
  rintro ⟨c, h, _⟩
  simp [ContextWithSpan, context.WithValue] at h

/-- C1, amended: for every non-nil context `ctx` and every non-nil span `s`,
`ContextWithSpan(ctx, s)` returns a context, and `SpanFromContext` of that context returns
exactly `(s, true)`. -/
theorem SpanFromContext_ContextWithSpan (ctx : Context) (s : Span) :
    ∃ c, ContextWithSpan (some ctx) (some s) = .ok c ∧
      SpanFromContext (some c) = (some s, true) := by
  refine ⟨(CtxKey.ActiveSpanKey, AnyVal.span s) :: ctx, rfl, ?_⟩
  simp [SpanFromContext, Context.Value, AnyVal.assertSpan]

/-- C2: `SpanFromContext` returns the no-op span (a non-nil span) together with `false`
for a nil context, for a context in which the lookup of the active-span key yields nil
(no value is stored under the key), and for a context whose value under that key is not a
span. -/
theorem SpanFromContext_not_found :
    SpanFromContext none = (some Span.NoopSpan, false) ∧
    (∀ c : Context, c.Value CtxKey.ActiveSpanKey = AnyVal.nil →
      SpanFromContext (some c) = (some Span.NoopSpan, false)) ∧
    (∀ (c : Context) (o : Nat), c.Value CtxKey.ActiveSpanKey = AnyVal.other o →
      SpanFromContext (some c) = (some Span.NoopSpan, false)) := by
  refine ⟨rfl, ?_, ?_⟩
  · intro c h
    simp [SpanFromContext, h, AnyVal.assertSpan]
  · intro c o h
    simp [SpanFromContext, h, AnyVal.assertSpan]

/-- C2 at concrete contexts: the root context, a context with a value under another key
only, and a context whose value under the active-span key is not a span. -/
theorem SpanFromContext_not_found_witness :
    SpanFromContext (some context.Background) = (some Span.NoopSpan, false) ∧
    SpanFromContext (some [(CtxKey.other 1, AnyVal.span (Span.custom [] 3))]) =
      (some Span.NoopSpan, false) ∧
    SpanFromContext (some [(CtxKey.ActiveSpanKey, AnyVal.other 5)]) =
      (some Span.NoopSpan, false) :=
  ⟨SpanFromContext_not_found.2.1 context.Background rfl,
   SpanFromContext_not_found.2.1 [(CtxKey.other 1, AnyVal.span (Span.custom [] 3))]
     (by decide),
   SpanFromContext_not_found.2.2 [(CtxKey.ActiveSpanKey, AnyVal.other 5)] 5 (by decide)⟩

/-! ## `internal/v2adapter.go` -/

/-- C3, on the code: for every span context `c`, `SpanContextV1Adapter.TraceIDBytes()`
holds the big-endian bytes of `c.TraceID()` in bytes 0 to 7 and zeros in bytes 8 to 15,
because `PutUint64` writes at the start of the slice.  Reading bytes `[8:16]` gives 0 and
reading bytes `[0:8]` gives `TraceIDLower()`; for the trace id 1 the result differs from
the 128-bit form of 1. -/
theorem TraceIDBytes_in_high_bytes (c : SpanContext) :
    SpanContextV1Adapter.TraceIDBytes { Ctx := some c } =
      .ok (bigEndianBytes c.TraceID ++ List.replicate 8 0) ∧
    SpanContextV1Adapter.TraceIDLower { Ctx := some c } = .ok c.TraceID ∧
    binary.BigEndian.Uint64 ((bigEndianBytes c.TraceID ++ List.replicate 8 0).drop 8) = 0 ∧
    binary.BigEndian.Uint64 ((bigEndianBytes c.TraceID ++ List.replicate 8 0).take 8) =
      c.TraceID ∧
    SpanContextV1Adapter.TraceIDBytes { Ctx := some (SpanContext.custom 1 2 [] []) } ≠
      .ok (traceID128Of64 1) := by
  refine ⟨rfl, rfl, ?_, ?_, ?_⟩
  · simp [bigEndianBytes, binary.BigEndian.Uint64]
  · have h := Uint64_bigEndianBytes c.TraceID c.TraceID_lt []
    simpa [bigEndianBytes] using h
  · intro h
    exact absurd (Except.ok.inj h) (by decide)

/-- C4, on the code: for every extracted context `c`, wrapping it for the v1 API and
re-wrapping that for injection gives `TraceIDBytes()` made of the low 64 bits of `c`
alone, so the result is the same whatever the high 64 bits are.  For the context with the
trace id `12345678901234567890123456789012` (hex) the bytes are `7890123456789012`
followed by eight zero bytes, not the sixteen bytes of the trace id: the high 64 bits
`1234567890123456` are lost. -/
theorem TraceIDBytes_rewrapped_drops_high_bits (c : V2SpanContext) :
    SpanContextV1Adapter.TraceIDBytes
        { Ctx := some (SpanContext.V2Adapter { Ctx := some c }) } =
      .ok (bigEndianBytes (V2SpanContext.TraceIDLower (some c)) ++ List.replicate 8 0) ∧
    (∀ hi : Nat,
      SpanContextV1Adapter.TraceIDBytes
          { Ctx := some (SpanContext.V2Adapter { Ctx := some { c with traceIDUpper := hi } }) } =
        SpanContextV1Adapter.TraceIDBytes
          { Ctx := some (SpanContext.V2Adapter { Ctx := some c }) }) ∧
    SpanContextV1Adapter.TraceIDBytes
        { Ctx := some (SpanContext.V2Adapter
            { Ctx := some { traceIDUpper := 0x1234567890123456,
                            traceIDLower := 0x7890123456789012,
                            spanID := 0x1234567890123456,
                            priority := some 1, baggage := [] } }) } =
      .ok ([0x78, 0x90, 0x12, 0x34, 0x56, 0x78, 0x90, 0x12] ++ List.replicate 8 0) ∧
    V2SpanContext.TraceIDBytes
        (some { traceIDUpper := 0x1234567890123456,
                traceIDLower := 0x7890123456789012,
                spanID := 0x1234567890123456,
                priority := some 1, baggage := [] }) =
      [0x12, 0x34, 0x56, 0x78, 0x90, 0x12, 0x34, 0x56,
       0x78, 0x90, 0x12, 0x34, 0x56, 0x78, 0x90, 0x12] ∧
    SpanContextV1Adapter.TraceIDBytes
        { Ctx := some (SpanContext.V2Adapter
            { Ctx := some { traceIDUpper := 0x1234567890123456,
                            traceIDLower := 0x7890123456789012,
                            spanID := 0x1234567890123456,
                            priority := some 1, baggage := [] } }) } ≠
      .ok (V2SpanContext.TraceIDBytes
            (some { traceIDUpper := 0x1234567890123456,
                    traceIDLower := 0x7890123456789012,
                    spanID := 0x1234567890123456,
                    priority := some 1, baggage := [] })) := by
  refine ⟨rfl, fun _ => rfl, ?_, ?_, ?_⟩
  · exact congrArg Except.ok (by decide)
  · decide
  · intro h
    exact absurd (Except.ok.inj h) (by decide)

/-- C5, on the code: the span context returned by `Context()` of a span started through
`StartSpanFromContext` is a `*SpanContextV2Adapter`, which declares no `TraceID128`
method, so the type assertion to `ddtrace.SpanContextW3C` yields `(nil, false)`. -/
theorem StartSpanFromContext_Context_not_W3C {Opt : Type}
    (v2StartSpanFromContext : Option Context → String → List Opt → Option V2Span × Option Context)
    (ctx : Option Context) (operationName : String) (opts : List Opt)
    (sp : SpanV2Adapter) (ctx1 : Context)
    (h : StartSpanFromContext v2StartSpanFromContext ctx operationName opts = .ok (sp, ctx1)) :
    SpanContext.assertSpanContextW3C sp.Context = (none, false) ∧
    SpanFromContext (some ctx1) = (some (Span.V2Adapter sp), true) := by
  refine ⟨rfl, ?_⟩
  unfold StartSpanFromContext at h
  cases hv : v2StartSpanFromContext ctx operationName opts with
  | mk span c0 =>
    rw [hv] at h
    cases c0 with
    | none => simp [ContextWithSpan, context.WithValue] at h
    | some c =>
      simp only [ContextWithSpan, context.WithValue, Span.toAny, Except.ok.injEq,
        Prod.mk.injEq] at h
      obtain ⟨h1, h2⟩ := h
      subst h1 h2
      simp [SpanFromContext, Context.Value, AnyVal.assertSpan]

/-- C5 at the input of `Test128`: a span started from `context.Background()` with the
operation name `http.request`, for a v2 tracer that returns a span with a 64-bit trace
id. -/
theorem StartSpanFromContext_Context_not_W3C_witness :
    SpanContext.assertSpanContextW3C
        (SpanV2Adapter.Context
          { Span := some { name := "http.request",
                           context := { traceIDUpper := 0, traceIDLower := 42, spanID := 42,
                                        priority := none, baggage := [] } } }) =
      (none, false) :=
  (StartSpanFromContext_Context_not_W3C
    (fun (c : Option Context) (n : String) (_ : List Unit) =>
      ((some { name := n,
               context := { traceIDUpper := 0, traceIDLower := 42, spanID := 42,
                            priority := none, baggage := [] } } : Option V2Span),
       (some (c.getD context.Background) : Option Context)))
    (some context.Background) "http.request" [] _ _ rfl).1

/-! ## `sqlcomment.go` -/

/-- C6, on the code: whatever the v2 carrier's `Inject` does and returns,
`SQLCommentCarrier.Inject` leaves the `Query` field of the carrier it was called on as it
was; the text the v2 call produced is held by the unexported field `carrier` only. -/
theorem SQLCommentCarrier_Inject_Query_unchanged
    (v2Inject : V2SQLCommentCarrier → SpanContextV1Adapter → V2SQLCommentCarrier × Option GoError)
    (c : SQLCommentCarrier) (spanCtx : Option SpanContext) :
    (c.Inject v2Inject spanCtx).1.Query = c.Query ∧
    (c.Inject v2Inject spanCtx).1.carrier = some (v2Inject c.inner { Ctx := spanCtx }).1 ∧
    (c.Inject v2Inject spanCtx).2 = (v2Inject c.inner { Ctx := spanCtx }).2 :=
  ⟨rfl, rfl, rfl⟩

/-- The shape of the result of `SQLCommentCarrier.Extract` for any behaviour of the v2
carrier: a context with a nil error, or a nil context with an error. -/
theorem SQLCommentCarrier.Extract_shape
    (v2Extract : V2SQLCommentCarrier → V2SQLCommentCarrier × Option V2SpanContext × Option GoError)
    (c : SQLCommentCarrier) :
    ((c.Extract v2Extract).2.1.isSome = true ∧ (c.Extract v2Extract).2.2 = none) ∨
    ((c.Extract v2Extract).2.1 = none ∧ (c.Extract v2Extract).2.2.isSome = true) := by
  unfold SQLCommentCarrier.Extract
  cases h : (v2Extract c.inner).2.2 with
  | none => left; simp [h]
  | some e => right; simp [h]

/-- C7: for every query string `q`, `SQLCommentCarrier{Query: q}.Extract()` returns a
result, and the result is either a context with a nil error or a nil context with an
error, never a context together with an error.  The same holds for every carrier. -/
theorem SQLCommentCarrier_Extract_total (q : String) :
    (∃ c1 ctx err,
      SQLCommentCarrier.Extract V2SQLCommentCarrier.Extract
          { Query := q, Mode := "", DBServiceName := "", SpanID := 0, carrier := none } =
        (c1, ctx, err) ∧
      ((ctx.isSome = true ∧ err = none) ∨ (ctx = none ∧ err.isSome = true))) ∧
    ∀ c : SQLCommentCarrier,
      ((c.Extract V2SQLCommentCarrier.Extract).2.1.isSome = true ∧
          (c.Extract V2SQLCommentCarrier.Extract).2.2 = none) ∨
      ((c.Extract V2SQLCommentCarrier.Extract).2.1 = none ∧
          (c.Extract V2SQLCommentCarrier.Extract).2.2.isSome = true) :=
  ⟨⟨_, _, _, rfl, SQLCommentCarrier.Extract_shape _ _⟩,
   fun c => SQLCommentCarrier.Extract_shape _ c⟩

/-! ## `tracer.go` -/

/-- C8, on the code: for every span returned by `StartSpan`, `SetUser(s, id, opts...)`
makes no call at all, because `*SpanV2Adapter` declares no `SetUser` method and the type
assertion in `SetUser` fails.  A span of a type that declares `SetUser` is reached. -/
theorem SetUser_StartSpan_no_call {Opt : Type}
    (v2StartSpan : String → List Opt → Option V2Span) (operationName : String)
    (opts : List Opt) (id : String) (uopts : List UserMonitoringOption) :
    SetUser (some (Span.V2Adapter (StartSpan v2StartSpan operationName opts))) id uopts = none ∧
    (SetUser (some (Span.custom ["SetUser"] 0)) id uopts).isSome = true := by
  constructor
  · rfl
  · simp [SetUser, implements, Span.methodSet, spanInterfaceMethods]

/-! ## `option.go` -/

/-- C9, as stated, fails for the zero value: `WithUserMetadata("k", "v")` applied to a
`UserMonitoringConfig` whose `Metadata` map is nil panics (assignment to entry in nil
map), so it does not complete and no configuration with `Metadata["k"] == "v"`
results. -/
theorem WithUserMetadata_nil_map_panics :
    WithUserMetadata "k" "v" UserMonitoringConfig.zero = .error Panic.nilMapAssignment ∧
    ¬ ∃ cfg1, WithUserMetadata "k" "v" UserMonitoringConfig.zero = .ok cfg1 ∧
        cfg1.Metadata.get "k" = some "v" := by
  refine ⟨rfl, ?_⟩
  rintro ⟨cfg1, h, _⟩
  simp [WithUserMetadata, UserMonitoringConfig.zero, GoMap.assign] at h

/-- One application of `WithUserMetadata` to a configuration with a non-nil map. -/
theorem WithUserMetadata_ok (cfg : UserMonitoringConfig) (es : List (String × String))
    (h : cfg.Metadata = some es) (k v : String) :
    WithUserMetadata k v cfg = .ok { cfg with Metadata := some (setEntry k v es) } := by
  simp [WithUserMetadata, GoMap.assign, h]

/-- Applying `WithUserMetadata` for each pair of a list with distinct keys, on a non-nil
map. -/
theorem applyUserOptions_metadata (kvs : List (String × String)) :
    ∀ (cfg : UserMonitoringConfig) (es : List (String × String)),
      cfg.Metadata = some es → (kvs.map Prod.fst).Nodup →
      ∃ cfg1, applyUserOptions (userMetadataOptions kvs) cfg = .ok cfg1 ∧
        cfg1.Metadata ≠ none ∧
        (∀ kv ∈ kvs, cfg1.Metadata.get kv.1 = some kv.2) ∧
        (∀ k, k ∉ kvs.map Prod.fst → cfg1.Metadata.get k = cfg.Metadata.get k) := by
  induction kvs with
  | nil =>
    intro cfg es h _
    exact ⟨cfg, rfl, by simp [h], by simp, by simp⟩
  | cons kv rest ih =>
    intro cfg es h hnd
    obtain ⟨k, v⟩ := kv
    simp only [List.map_cons, List.nodup_cons] at hnd
    obtain ⟨hk, hrest⟩ := hnd
    obtain ⟨cfg1, h1, h2, h3, h4⟩ :=
      ih { cfg with Metadata := some (setEntry k v es) } (setEntry k v es) rfl hrest
    refine ⟨cfg1, ?_, h2, ?_, ?_⟩
    · simp only [userMetadataOptions, List.map_cons, applyUserOptions]
      rw [WithUserMetadata_ok cfg es h k v]
      exact h1
    · intro kv hkv
      rcases List.mem_cons.1 hkv with e | e
      · subst e
        rw [h4 k hk]
        simp [GoMap.get_setEntry]
      · exact h3 kv e
    · intro k1 hk1
      simp only [List.map_cons, List.mem_cons, not_or] at hk1
      rw [h4 k1 hk1.2, h]
      simp [GoMap.get_setEntry, hk1.1]

/-- C9, amended: for every `UserMonitoringConfig` whose `Metadata` map is not nil,
applying `WithUserMetadata(key, value)` completes without failure and leaves
`Metadata[key] == value` and every other key as it was; applying it several times with
distinct keys completes and keeps every pair. -/
theorem WithUserMetadata_non_nil_map (cfg : UserMonitoringConfig)
    (h : cfg.Metadata ≠ none) :
    (∀ key value : String, ∃ cfg1, WithUserMetadata key value cfg = .ok cfg1 ∧
      cfg1.Metadata.get key = some value ∧
      ∀ k, k ≠ key → cfg1.Metadata.get k = cfg.Metadata.get k) ∧
    (∀ kvs : List (String × String), (kvs.map Prod.fst).Nodup →
      ∃ cfg1, applyUserOptions (userMetadataOptions kvs) cfg = .ok cfg1 ∧
        ∀ kv ∈ kvs, cfg1.Metadata.get kv.1 = some kv.2) := by
  cases hm : cfg.Metadata with
  | none => exact absurd hm h
  | some es =>
    constructor
    · intro key value
      refine ⟨_, WithUserMetadata_ok cfg es hm key value, ?_, ?_⟩
      · simp [GoMap.get_setEntry]
      · intro k hk
        simp [GoMap.get_setEntry, hk]
    · intro kvs hnd
      obtain ⟨cfg1, h1, _, h3, _⟩ := applyUserOptions_metadata kvs cfg es hm hnd
      exact ⟨cfg1, h1, h3⟩

/-- C9, amended, at the configuration with an empty, non-nil map: one application with the
key `a`, and two applications with the keys `a` and `b`. -/
theorem WithUserMetadata_non_nil_map_witness :
    (∃ cfg1, WithUserMetadata "a" "1"
        { UserMonitoringConfig.zero with Metadata := some [] } = .ok cfg1 ∧
      cfg1.Metadata.get "a" = some "1" ∧
      ∀ k, k ≠ "a" → cfg1.Metadata.get k =
        GoMap.get { UserMonitoringConfig.zero with Metadata := some [] }.Metadata k) ∧
    ∃ cfg1, applyUserOptions (userMetadataOptions [("a", "1"), ("b", "2")])
        { UserMonitoringConfig.zero with Metadata := some [] } = .ok cfg1 ∧
      ∀ kv ∈ [("a", "1"), ("b", "2")], cfg1.Metadata.get kv.1 = some kv.2 :=
  ⟨(WithUserMetadata_non_nil_map { UserMonitoringConfig.zero with Metadata := some [] }
      (by decide)).1 "a" "1",
   (WithUserMetadata_non_nil_map { UserMonitoringConfig.zero with Metadata := some [] }
      (by decide)).2 [("a", "1"), ("b", "2")] (by decide)⟩

/-- C10, on the code: `WithDebugStack(enabled)` calls itself and nothing else, so for no
depth of the call stack does it return a `StartOption`. -/
theorem WithDebugStack_never_returns (fuel : Nat) (enabled : Bool) :
    WithDebugStack fuel enabled = none := by
  induction fuel with
  | zero => rfl
  | succ n ih => simpa [WithDebugStack] using ih

/-! ## `sampler.go` and `WithSampler` -/

/-- C11, on the code: `WithSampler(s)` does not use `s`.  For any two samplers it returns
the same start option, `v2.WithSamplingRules` of the empty rule list; a sampler that keeps
every span and one that keeps none give the same option. -/
theorem WithSampler_ignores_sampler (s1 s2 : Option Sampler) :
    WithSampler s1 = WithSampler s2 ∧
    WithSampler s1 = StartOption.WithSamplingRules [] ∧
    WithSampler (some (Sampler.custom 0 fun _ => true)) =
      WithSampler (some (Sampler.custom 1 fun _ => false)) ∧
    WithSampler (some (Sampler.rateSampler (NewRateSampler 0))) =
      WithSampler (some (Sampler.rateSampler (NewRateSampler 1))) :=
  ⟨rfl, rfl, rfl, rfl⟩

/-- C12, on the code: `Sample` of the sampler returned by `NewAllSampler` panics in the
type assertion `span.(*internal.SpanV2Adapter)` for the no-op span, for the span that
`SpanFromContext` returns on a context without a span, and for every span of another
implementation; only for a `*SpanV2Adapter` does it return the answer of the v2
sampler. -/
theorem NewAllSampler_Sample_panics (v2Sample : V2RateSampler → Option V2Span → Bool) :
    NewAllSampler.Sample v2Sample (some Span.NoopSpan) = .error Panic.typeAssertion ∧
    NewAllSampler.Sample v2Sample (SpanFromContext (some context.Background)).1 =
      .error Panic.typeAssertion ∧
    (∀ extra id, NewAllSampler.Sample v2Sample (some (Span.custom extra id)) =
      .error Panic.typeAssertion) ∧
    (∀ sa : SpanV2Adapter, NewAllSampler.Sample v2Sample (some (Span.V2Adapter sa)) =
      .ok (v2Sample NewAllSampler.Sampler sa.Span)) :=
  ⟨rfl, rfl, fun _ _ => rfl, fun _ => rfl⟩

/-! ## `textmap.go`: `TextMapCarrier` -/

/-- C14, as stated, fails for the nil carrier: `TextMapCarrier(nil).Set("a", "b")` panics
(assignment to entry in nil map), so no carrier with `c["a"] == "b"` results. -/
theorem TextMapCarrier_Set_nil_panics :
    TextMapCarrier.Set none "a" "b" = .error Panic.nilMapAssignment ∧
    ¬ ∃ c1, TextMapCarrier.Set none "a" "b" = .ok c1 ∧ GoMap.get c1 "a" = some "b" := by
  refine ⟨rfl, ?_⟩
  rintro ⟨c1, h, _⟩
  simp [TextMapCarrier.Set, GoMap.assign] at h

/-- C14, amended: for every non-nil `TextMapCarrier` `c`, key `k` and value `v`,
`c.Set(k, v)` completes, afterwards the lookup `c[k]` is `v`, and the value under every
other key is unchanged. -/
theorem TextMapCarrier_Set_non_nil (c : TextMapCarrier) (h : c ≠ none) (k v : String) :
    ∃ c1, TextMapCarrier.Set c k v = .ok c1 ∧ GoMap.get c1 k = some v ∧
      ∀ k1, k1 ≠ k → GoMap.get c1 k1 = GoMap.get c k1 := by
  cases c with
  | none => exact absurd rfl h
  | some es =>
    refine ⟨some (setEntry k v es), rfl, ?_, ?_⟩
    · simp [GoMap.get_setEntry]
    · intro k1 hk1
      simp [GoMap.get_setEntry, hk1]

/-- C14, amended, at the carrier of `TestTextMapCarrierSet`: the empty map, key `a` and
value `b`. -/
theorem TextMapCarrier_Set_non_nil_witness :
    ∃ c1, TextMapCarrier.Set (some []) "a" "b" = .ok c1 ∧ GoMap.get c1 "a" = some "b" ∧
      ∀ k1, k1 ≠ "a" → GoMap.get c1 k1 = GoMap.get (some []) k1 :=
  TextMapCarrier_Set_non_nil (some []) (by decide) "a" "b"

/-- Running the loop over `a ++ b`: the run over `a`, and after it, unless it returned an
error, the run over `b`. -/
theorem foreachPairs_append {σ : Type} (handler : Handler σ) (a b : List (String × String)) :
    ∀ s : σ, foreachPairs handler (a ++ b) s =
      match (foreachPairs handler a s).err with
      | some _ => foreachPairs handler a s
      | none =>
        { state := (foreachPairs handler b (foreachPairs handler a s).state).state,
          calls := (foreachPairs handler a s).calls ++
            (foreachPairs handler b (foreachPairs handler a s).state).calls,
          err := (foreachPairs handler b (foreachPairs handler a s).state).err } := by
  induction a with
  | nil => intro s; simp [foreachPairs]
  | cons e rest ih =>
    intro s
    obtain ⟨k, v⟩ := e
    simp only [List.cons_append, foreachPairs]
    cases hh : handler s k v with
    | mk s1 e1 =>
      cases e1 with
      | some err => simp
      | none =>
        have h1 := ih s1
        cases hr : (foreachPairs handler rest s1).err with
        | some err =>
          rw [hr] at h1
          simp [h1, hr]
        | none =>
          rw [hr] at h1
          simp [h1]

/-- A handler that never fails is invoked on every pair, in order, and the run returns
nil. -/
theorem foreachPairs_never_fails {σ : Type} (handler : Handler σ)
    (h : ∀ s k v, (handler s k v).2 = none) (l : List (String × String)) :
    ∀ s : σ, (foreachPairs handler l s).err = none ∧ (foreachPairs handler l s).calls = l := by
  induction l with
  | nil => intro s; simp [foreachPairs]
  | cons e rest ih =>
    intro s
    obtain ⟨k, v⟩ := e
    have hk := h s k v
    simp only [foreachPairs]
    cases hh : handler s k v with
    | mk s1 e1 =>
      rw [hh] at hk
      simp only at hk
      subst hk
      simp [ih s1]

/-- A run that returns nil has invoked the handler on every pair, in order. -/
theorem foreachPairs_calls_of_ok {σ : Type} (handler : Handler σ) (l : List (String × String)) :
    ∀ s : σ, (foreachPairs handler l s).err = none → (foreachPairs handler l s).calls = l := by
  induction l with
  | nil => intro s _; simp [foreachPairs]
  | cons e rest ih =>
    intro s
    obtain ⟨k, v⟩ := e
    simp only [foreachPairs]
    cases hh : handler s k v with
    | mk s1 e1 =>
      cases e1 with
      | some err => simp
      | none =>
        intro hn
        simp only at hn
        simp [ih s1 hn]

/-- The first error of the handler ends the run: the pairs before it and the failing pair
are the only ones visited. -/
theorem foreachPairs_first_error {σ : Type} (handler : Handler σ)
    (pre post : List (String × String)) (e : String × String) (s : σ) (err : GoError)
    (hpre : (foreachPairs handler pre s).err = none)
    (he : (handler (foreachPairs handler pre s).state e.1 e.2).2 = some err) :
    (foreachPairs handler (pre ++ e :: post) s).err = some err ∧
    (foreachPairs handler (pre ++ e :: post) s).calls = pre ++ [e] ∧
    (foreachPairs handler (pre ++ e :: post) s).state =
      (handler (foreachPairs handler pre s).state e.1 e.2).1 := by
  rw [foreachPairs_append, hpre]
  obtain ⟨k, v⟩ := e
  simp only [foreachPairs] at he ⊢
  cases hh : handler (foreachPairs handler pre s).state k v with
  | mk s1 e1 =>
    rw [hh] at he
    simp only at he
    subst he
    simp [foreachPairs_calls_of_ok handler pre s hpre]

/-- The recording handler ends with the pairs it has seen before, followed by the visited
pairs. -/
theorem foreachPairs_recording (l : List (String × String)) :
    ∀ seen, (foreachPairs recordingHandler l seen).state = seen ++ l := by
  induction l with
  | nil => intro seen; simp [foreachPairs]
  | cons e rest ih =>
    intro seen
    obtain ⟨k, v⟩ := e
    simp [foreachPairs, recordingHandler, ih]

/-- C15: for every `TextMapCarrier` `c` and every handler that always returns nil,
`c.ForeachKey(handler)` returns nil and invokes the handler exactly on the entries of
`c`, each once; the handler that collects the visited pairs ends with the entries of
`c`. -/
theorem TextMapCarrier_ForeachKey_visits_all {σ : Type} (c : TextMapCarrier)
    (handler : Handler σ) (s : σ) (h : ∀ s k v, (handler s k v).2 = none) :
    (TextMapCarrier.ForeachKey c handler s).err = none ∧
    (TextMapCarrier.ForeachKey c handler s).calls = GoMap.entries c ∧
    (TextMapCarrier.ForeachKey c recordingHandler []).state = GoMap.entries c := by
  refine ⟨(foreachPairs_never_fails handler h _ s).1, (foreachPairs_never_fails handler h _ s).2,
    ?_⟩
  simp [TextMapCarrier.ForeachKey, foreachPairs_recording]

/-- C15 at the carrier of `TestTextMapCarrierForeachKey`, with the collecting handler. -/
theorem TextMapCarrier_ForeachKey_visits_all_witness :
    (TextMapCarrier.ForeachKey (some [("A", "x"), ("B", "y")]) recordingHandler []).err = none ∧
    (TextMapCarrier.ForeachKey (some [("A", "x"), ("B", "y")]) recordingHandler []).calls =
      GoMap.entries (some [("A", "x"), ("B", "y")]) ∧
    (TextMapCarrier.ForeachKey (some [("A", "x"), ("B", "y")]) recordingHandler []).state =
      GoMap.entries (some [("A", "x"), ("B", "y")]) :=
  TextMapCarrier_ForeachKey_visits_all (some [("A", "x"), ("B", "y")]) recordingHandler []
    (fun _ _ _ => rfl)

/-- C16: for every `TextMapCarrier` `c` with an entry `e` on which the handler returns a
non-nil error `err`, after returning nil on the entries `pre` visited before it,
`c.ForeachKey(handler)` returns exactly `err`, and the handler is invoked on `pre` and
`e` only: not again after the error. -/
theorem TextMapCarrier_ForeachKey_first_error {σ : Type} (c : TextMapCarrier)
    (handler : Handler σ) (s : σ) (pre post : List (String × String)) (e : String × String)
    (err : GoError) (hc : GoMap.entries c = pre ++ e :: post)
    (hpre : (foreachPairs handler pre s).err = none)
    (he : (handler (foreachPairs handler pre s).state e.1 e.2).2 = some err) :
    (TextMapCarrier.ForeachKey c handler s).err = some err ∧
    (TextMapCarrier.ForeachKey c handler s).calls = pre ++ [e] ∧
    (TextMapCarrier.ForeachKey c handler s).state =
      (handler (foreachPairs handler pre s).state e.1 e.2).1 := by
  unfold TextMapCarrier.ForeachKey
  rw [hc]
  exact foreachPairs_first_error handler pre post e s err hpre he

/-- C16 at the carrier of `TestTextMapCarrierForeachKeyError`, with a handler that always
fails: the error is returned after one call. -/
theorem TextMapCarrier_ForeachKey_first_error_witness :
    (TextMapCarrier.ForeachKey (some [("A", "x"), ("B", "y")])
        (fun (n : Nat) _ _ => (n + 1, some (GoError.other "random error"))) 0).err =
      some (GoError.other "random error") ∧
    (TextMapCarrier.ForeachKey (some [("A", "x"), ("B", "y")])
        (fun (n : Nat) _ _ => (n + 1, some (GoError.other "random error"))) 0).calls =
      [] ++ [("A", "x")] ∧
    (TextMapCarrier.ForeachKey (some [("A", "x"), ("B", "y")])
        (fun (n : Nat) _ _ => (n + 1, some (GoError.other "random error"))) 0).state = 1 :=
  TextMapCarrier_ForeachKey_first_error (some [("A", "x"), ("B", "y")])
    (fun (n : Nat) _ _ => (n + 1, some (GoError.other "random error"))) 0
    [] [("B", "y")] ("A", "x") (GoError.other "random error") rfl rfl rfl

/-! ## `textmap.go`: `HTTPHeadersCarrier` -/

theorem entryGet_entrySet {κ ν : Type} [DecidableEq κ] (k : κ) (v : ν) (es : List (κ × ν))
    (k1 : κ) : entryGet k1 (entrySet k v es) = if k1 = k then some v else entryGet k1 es := by
  induction es with
  | nil =>
    by_cases h : k1 = k
    · simp [entrySet, entryGet, h]
    · have h2 : ¬ k = k1 := fun e => h e.symm
      simp [entrySet, entryGet, h, h2]
  | cons e rest ih =>
    obtain ⟨a, b⟩ := e
    by_cases hak : a = k
    · by_cases h : k1 = k
      · simp [entrySet, entryGet, hak, h]
      · have h2 : ¬ k = k1 := fun e => h e.symm
        simp [entrySet, entryGet, hak, h, h2]
    · by_cases ha1 : a = k1
      · have h : ¬ k1 = k := fun e => hak (ha1.trans e)
        simp [entrySet, entryGet, hak, ha1, h]
      · simp [entrySet, entryGet, hak, ha1, ih]

theorem entryGet_entryDelete {κ ν : Type} [DecidableEq κ] (k : κ) (es : List (κ × ν))
    (k1 : κ) : entryGet k1 (entryDelete k es) = if k1 = k then none else entryGet k1 es := by
  induction es with
  | nil => simp [entryDelete, entryGet]
  | cons e rest ih =>
    obtain ⟨a, b⟩ := e
    simp only [entryDelete] at ih
    by_cases hak : a = k
    · by_cases h : k1 = k
      · simpa [entryDelete, List.filter_cons, hak, h] using ih
      · have h2 : ¬ k = k1 := fun e => h e.symm
        simpa [entryDelete, List.filter_cons, entryGet, hak, h, h2] using ih
    · by_cases ha1 : a = k1
      · have h : ¬ k1 = k := fun e => hak (ha1.trans e)
        simp [entryDelete, List.filter_cons, entryGet, hak, ha1, h]
      · simpa [entryDelete, List.filter_cons, entryGet, hak, ha1] using ih

/-- C17, as stated, fails for the nil header: `HTTPHeadersCarrier(nil).Set("A", "x")`
panics (assignment to entry in nil map), so no header with `h.Get("A") == "x"`
results. -/
theorem HTTPHeadersCarrier_Set_nil_panics :
    HTTPHeadersCarrier.Set none "A" "x" = .error Panic.nilMapAssignment ∧
    ¬ ∃ h1, HTTPHeadersCarrier.Set none "A" "x" = .ok h1 ∧ Header.Get h1 "A" = "x" := by
  refine ⟨rfl, ?_⟩
  rintro ⟨h1, h, _⟩
  simp [HTTPHeadersCarrier.Set, Header.Set] at h

/-- C17, amended: for every `HTTPHeadersCarrier` over a non-nil header `h`, key `k` and
value `v`, `c.Set(k, v)` completes; afterwards `h.Get(k)` returns `v`, the values stored
under `k` are the single value `v` (`h.Values(k)`), every map entry other than the one of
the canonical form of `k` is unchanged, and so are `Values` and `Get` of every key with
another canonical form. -/
theorem HTTPHeadersCarrier_Set_non_nil (h : Header) (hne : h ≠ none) (k v : String) :
    ∃ h1, HTTPHeadersCarrier.Set h k v = .ok h1 ∧
      Header.Get h1 k = v ∧
      Header.Values h1 k = [v] ∧
      (∀ k1, k1 ≠ CanonicalMIMEHeaderKey k → Header.index h1 k1 = Header.index h k1) ∧
      (∀ k1, CanonicalMIMEHeaderKey k1 ≠ CanonicalMIMEHeaderKey k →
        Header.Values h1 k1 = Header.Values h k1 ∧ Header.Get h1 k1 = Header.Get h k1) := by
  cases h with
  | none => exact absurd rfl hne
  | some es =>
    refine ⟨some (entrySet (CanonicalMIMEHeaderKey k) [v] es), rfl, ?_, ?_, ?_, ?_⟩
    · simp [Header.Get, Header.Values, Header.index, entryGet_entrySet]
    · simp [Header.Values, Header.index, entryGet_entrySet]
    · intro k1 hk1
      simp [Header.index, entryGet_entrySet, hk1]
    · intro k1 hk1
      simp [Header.Get, Header.Values, Header.index, entryGet_entrySet, hk1]

/-- C17, amended, at the header of `TestHTTPHeadersCarrierSet`: the empty header, key `A`
and value `x`. -/
theorem HTTPHeadersCarrier_Set_non_nil_witness :
    ∃ h1, HTTPHeadersCarrier.Set (some []) "A" "x" = .ok h1 ∧
      Header.Get h1 "A" = "x" ∧
      Header.Values h1 "A" = ["x"] ∧
      (∀ k1, k1 ≠ CanonicalMIMEHeaderKey "A" →
        Header.index h1 k1 = Header.index (some []) k1) ∧
      (∀ k1, CanonicalMIMEHeaderKey k1 ≠ CanonicalMIMEHeaderKey "A" →
        Header.Values h1 k1 = Header.Values (some []) k1 ∧
        Header.Get h1 k1 = Header.Get (some []) k1) :=
  HTTPHeadersCarrier_Set_non_nil (some []) (by decide) "A" "x"

/-- The inner loop over the values of a key is the loop over the pairs of that key. -/
theorem foreachValues_eq {σ : Type} (handler : Handler σ) (k : String) (vals : List String) :
    ∀ s : σ, foreachValues handler k vals s =
      foreachPairs handler (vals.map fun v => (k, v)) s := by
  induction vals with
  | nil => intro s; rfl
  | cons v rest ih =>
    intro s
    simp only [foreachValues, List.map_cons, foreachPairs]
    cases hh : handler s k v with
    | mk s1 e1 =>
      cases e1 with
      | some err => rfl
      | none => simp [ih s1]

/-- The nested loops over a header are the loop over its `(key, value)` pairs. -/
theorem foreachHeader_eq {σ : Type} (handler : Handler σ) (es : List (String × List String)) :
    ∀ s : σ, foreachHeader handler es s =
      foreachPairs handler (es.flatMap fun e => e.2.map fun v => (e.1, v)) s := by
  induction es with
  | nil => intro s; rfl
  | cons e rest ih =>
    intro s
    obtain ⟨k, vals⟩ := e
    simp only [foreachHeader, List.flatMap_cons, foreachPairs_append, foreachValues_eq]
    cases hr : (foreachPairs handler (vals.map fun v => (k, v)) s).err with
    | some err =>
      simp only
      cases hv : foreachPairs handler (vals.map fun v => (k, v)) s with
      | mk st cl er =>
        rw [hv] at hr
        simp only at hr
        simp [hr]
    | none => simp [ih]

/-- C18: for every `HTTPHeadersCarrier` `c`, a handler that never fails is invoked by
`c.ForeachKey` once per `(key, value)` pair, every value of a key in order, and nil is
returned; when the handler returns a non-nil error `err` on a pair `e`, after returning
nil on the pairs `pre` visited before it, `ForeachKey` returns exactly `err` and the
handler is invoked on `pre` and `e` only. -/
theorem HTTPHeadersCarrier_ForeachKey_visits {σ : Type} (c : HTTPHeadersCarrier)
    (handler : Handler σ) (s : σ) :
    ((∀ s k v, (handler s k v).2 = none) →
      (HTTPHeadersCarrier.ForeachKey c handler s).err = none ∧
      (HTTPHeadersCarrier.ForeachKey c handler s).calls = Header.pairs c) ∧
    (∀ (pre post : List (String × String)) (e : String × String) (err : GoError),
      Header.pairs c = pre ++ e :: post →
      (foreachPairs handler pre s).err = none →
      (handler (foreachPairs handler pre s).state e.1 e.2).2 = some err →
      (HTTPHeadersCarrier.ForeachKey c handler s).err = some err ∧
      (HTTPHeadersCarrier.ForeachKey c handler s).calls = pre ++ [e]) := by
  unfold HTTPHeadersCarrier.ForeachKey
  rw [foreachHeader_eq]
  constructor
  · intro h
    exact foreachPairs_never_fails handler h _ s
  · intro pre post e err hc hpre he
    unfold Header.pairs at hc
    rw [hc]
    exact ⟨(foreachPairs_first_error handler pre post e s err hpre he).1,
      (foreachPairs_first_error handler pre post e s err hpre he).2.1⟩

/-- C18 at a header with a key of two values: the collecting handler visits the three
pairs in order, and the handler of `TestHTTPHeadersCarrierForeachKeyError`, which fails
on key `B`, stops the run at the pair of `B`. -/
theorem HTTPHeadersCarrier_ForeachKey_visits_witness :
    ((HTTPHeadersCarrier.ForeachKey (some [("A", ["x", "y"]), ("B", ["z"]), ("C", ["w"])])
        recordingHandler []).err = none ∧
      (HTTPHeadersCarrier.ForeachKey (some [("A", ["x", "y"]), ("B", ["z"]), ("C", ["w"])])
        recordingHandler []).calls =
        Header.pairs (some [("A", ["x", "y"]), ("B", ["z"]), ("C", ["w"])])) ∧
    ((HTTPHeadersCarrier.ForeachKey (some [("A", ["x", "y"]), ("B", ["z"]), ("C", ["w"])])
        (fun (n : Nat) k _ =>
          (n + 1, if k = "B" then some (GoError.other "random error") else none)) 0).err =
        some (GoError.other "random error") ∧
      (HTTPHeadersCarrier.ForeachKey (some [("A", ["x", "y"]), ("B", ["z"]), ("C", ["w"])])
        (fun (n : Nat) k _ =>
          (n + 1, if k = "B" then some (GoError.other "random error") else none)) 0).calls =
        [("A", "x"), ("A", "y")] ++ [("B", "z")]) :=
  ⟨(HTTPHeadersCarrier_ForeachKey_visits
      (some [("A", ["x", "y"]), ("B", ["z"]), ("C", ["w"])]) recordingHandler []).1
      (fun _ _ _ => rfl),
   (HTTPHeadersCarrier_ForeachKey_visits
      (some [("A", ["x", "y"]), ("B", ["z"]), ("C", ["w"])])
      (fun (n : Nat) k _ =>
        (n + 1, if k = "B" then some (GoError.other "random error") else none)) 0).2
      [("A", "x"), ("A", "y")] [("C", "w")] ("B", "z") (GoError.other "random error")
      (by decide) (by decide) (by decide)⟩

/-! ## `mocktracer.go` -/

theorem mem_of_entryGet {κ ν : Type} [DecidableEq κ] (k : κ) (v : ν) (es : List (κ × ν)) :
    entryGet k es = some v → (k, v) ∈ es := by
  induction es with
  | nil => simp [entryGet]
  | cons e rest ih =>
    obtain ⟨a, b⟩ := e
    by_cases hak : a = k
    · simp only [entryGet, hak, if_true, Option.some.injEq]
      intro hb
      simp [hb]
    · simp only [entryGet, hak, if_false]
      intro h
      exact List.mem_cons_of_mem _ (ih h)

theorem entryGet_of_mem_nodup {κ ν : Type} [DecidableEq κ] (k : κ) (v : ν)
    (es : List (κ × ν)) (hnd : (es.map Prod.fst).Nodup) (hm : (k, v) ∈ es) :
    entryGet k es = some v := by
  induction es with
  | nil => simp at hm
  | cons e rest ih =>
    obtain ⟨a, b⟩ := e
    simp only [List.map_cons, List.nodup_cons] at hnd
    rcases List.mem_cons.1 hm with h | h
    · have h1 : k = a := (Prod.mk.inj h).1
      have h2 : v = b := (Prod.mk.inj h).2
      simp [entryGet, h1, h2]
    · have hka : a ≠ k := by
        intro e
        apply hnd.1
        rw [e]
        exact List.mem_map_of_mem Prod.fst h
      simp only [entryGet, hka, if_false]
      exact ih hnd.2 h

theorem mem_keys_entrySet {κ ν : Type} [DecidableEq κ] (k : κ) (v : ν) (es : List (κ × ν))
    (x : κ) : x ∈ (entrySet k v es).map Prod.fst ↔ x = k ∨ x ∈ es.map Prod.fst := by
  induction es with
  | nil => simp [entrySet]
  | cons e rest ih =>
    obtain ⟨a, b⟩ := e
    by_cases hak : a = k
    · simp [entrySet, hak]
    · simp only [entrySet, hak, if_false, List.map_cons, List.mem_cons, ih]
      tauto

theorem nodup_keys_entrySet {κ ν : Type} [DecidableEq κ] (k : κ) (v : ν) (es : List (κ × ν))
    (hnd : (es.map Prod.fst).Nodup) : ((entrySet k v es).map Prod.fst).Nodup := by
  induction es with
  | nil => simp [entrySet]
  | cons e rest ih =>
    obtain ⟨a, b⟩ := e
    simp only [List.map_cons, List.nodup_cons] at hnd
    by_cases hak : a = k
    · simp only [entrySet, hak, if_true, List.map_cons, List.nodup_cons]
      exact ⟨hak ▸ hnd.1, hnd.2⟩
    · simp only [entrySet, hak, if_false, List.map_cons, List.nodup_cons]
      refine ⟨?_, ih hnd.2⟩
      intro h
      rcases (mem_keys_entrySet k v rest a).1 h with h | h
      · exact hak h
      · exact hnd.1 h

theorem nodup_keys_entryDelete {κ ν : Type} [DecidableEq κ] (k : κ) (es : List (κ × ν))
    (hnd : (es.map Prod.fst).Nodup) : ((entryDelete k es).map Prod.fst).Nodup :=
  List.Nodup.sublist (List.Sublist.map Prod.fst (List.filter_sublist es)) hnd

theorem contains_append_singleton (l : List MockCall) (c x : MockCall) :
    (l ++ [c]).contains x = (l.contains x || decide (x = c)) := by
  induction l with
  | nil => simp
  | cons a rest ih =>
    rw [List.cons_append, List.contains_cons, List.contains_cons, ih, Bool.or_assoc]

theorem startedNotFinished_append_start (init : List MockCall) (s1 s : V2Span) :
    startedNotFinished (init ++ [MockCall.StartSpan s1]) s =
      (decide (s1 = s) || startedNotFinished init s) := by
  induction init with
  | nil => simp [startedNotFinished]
  | cons c rest ih =>
    cases c with
    | StartSpan s0 =>
      rw [List.cons_append]
      simp only [startedNotFinished, ih, contains_append_singleton]
      by_cases h0 : s0 = s <;> by_cases h1 : s1 = s <;>
        cases hc : rest.contains (MockCall.FinishSpan s) <;>
        cases hs : startedNotFinished rest s <;>
        simp [h0, h1]
    | FinishSpan s0 => exact ih

theorem startedNotFinished_append_finish (init : List MockCall) (s1 s : V2Span) :
    startedNotFinished (init ++ [MockCall.FinishSpan s1]) s =
      (startedNotFinished init s && !decide (s1 = s)) := by
  induction init with
  | nil => simp [startedNotFinished]
  | cons c rest ih =>
    cases c with
    | StartSpan s0 =>
      rw [List.cons_append]
      simp only [startedNotFinished, ih, contains_append_singleton]
      by_cases h0 : s0 = s <;> by_cases h1 : s1 = s <;>
        cases hc : rest.contains (MockCall.FinishSpan s) <;>
        cases hs : startedNotFinished rest s <;>
        simp [h0, h1, @eq_comm _ s s1]
    | FinishSpan s0 => exact ih

theorem startedNotFinished_mem (calls : List MockCall) (s : V2Span) :
    startedNotFinished calls s = true → MockCall.StartSpan s ∈ calls := by
  induction calls with
  | nil => simp [startedNotFinished]
  | cons c rest ih =>
    cases c with
    | StartSpan s0 =>
      simp only [startedNotFinished, Bool.or_eq_true, Bool.and_eq_true, decide_eq_true_eq]
      rintro (⟨h, _⟩ | h)
      · simp [h]
      · exact List.mem_cons_of_mem _ (ih h)
    | FinishSpan s0 =>
      simp only [startedNotFinished]
      intro h
      exact List.mem_cons_of_mem _ (ih h)

theorem mocktracer.run_append (t : mocktracer) (init : List MockCall) (c : MockCall) :
    t.run (init ++ [c]) = (t.run init).step c := by
  simp [mocktracer.run, List.foldl_append]

/-- The invariant of the mock tracer along a sequence of calls in which different spans
have different span ids: the keys of `openSpans` are distinct, every entry is a started
and not yet finished span under its own span id, and every such span has its entry. -/
theorem mocktracer.run_invariant (calls : List MockCall) :
    (∀ c1 ∈ calls, ∀ c2 ∈ calls,
      spanIDOf (some c1.span) = spanIDOf (some c2.span) → c1.span = c2.span) →
    ((newMockTracer.run calls).openSpans.map Prod.fst).Nodup ∧
    (∀ k m, entryGet k (newMockTracer.run calls).openSpans = some m →
      ∃ s, m = mocktracer.MockSpan (some s) ∧ k = spanIDOf (some s) ∧
        startedNotFinished calls s = true) ∧
    (∀ s, startedNotFinished calls s = true →
      entryGet (spanIDOf (some s)) (newMockTracer.run calls).openSpans =
        some (mocktracer.MockSpan (some s))) := by
  induction calls using List.reverseRecOn with
  | nil =>
    intro _
    simp [mocktracer.run, newMockTracer, entryGet, startedNotFinished]
  | append_singleton init c ih =>
    intro hinj
    have hinj0 : ∀ c1 ∈ init, ∀ c2 ∈ init,
        spanIDOf (some c1.span) = spanIDOf (some c2.span) → c1.span = c2.span :=
      fun c1 h1 c2 h2 => hinj c1 (List.mem_append_left _ h1) c2 (List.mem_append_left _ h2)
    obtain ⟨ih1, ih2, ih3⟩ := ih hinj0
    have hlast : c ∈ init ++ [c] := List.mem_append_right _ (List.mem_singleton.2 rfl)
    rw [mocktracer.run_append]
    cases c with
    | StartSpan s1 =>
      simp only [mocktracer.step, mocktracer.StartSpan]
      refine ⟨nodup_keys_entrySet _ _ _ ih1, ?_, ?_⟩
      · intro k m hk
        rw [entryGet_entrySet] at hk
        by_cases hks : k = spanIDOf (some s1)
        · simp only [hks, if_true, Option.some.injEq] at hk
          exact ⟨s1, hk.symm, hks, by simp [startedNotFinished_append_start]⟩
        · simp only [hks, if_false] at hk
          obtain ⟨s, hm, hk2, hs⟩ := ih2 k m hk
          exact ⟨s, hm, hk2, by simp [startedNotFinished_append_start, hs]⟩
      · intro s hs
        rw [entryGet_entrySet]
        rw [startedNotFinished_append_start] at hs
        by_cases hid : spanIDOf (some s) = spanIDOf (some s1)
        · simp only [hid, if_true, Option.some.injEq]
          have hs0 : s1 = s ∨ startedNotFinished init s = true := by simpa using hs
          have hs1 : s = s1 := by
            rcases hs0 with h | h
            · exact h.symm
            · exact hinj _ (List.mem_append_left _ (startedNotFinished_mem init s h)) _ hlast hid
          rw [hs1]
        · simp only [hid, if_false]
          have hs0 : s1 = s ∨ startedNotFinished init s = true := by simpa using hs
          rcases hs0 with h | h
          · exact absurd (by rw [h]) hid
          · exact ih3 s h
    | FinishSpan s1 =>
      simp only [mocktracer.step, mocktracer.FinishSpan, mocktracer.addFinishedSpan]
      refine ⟨nodup_keys_entryDelete _ _ ih1, ?_, ?_⟩
      · intro k m hk
        rw [entryGet_entryDelete] at hk
        by_cases hks : k = spanIDOf (some s1)
        · simp [hks] at hk
        · simp only [hks, if_false] at hk
          obtain ⟨s, hm, hk2, hs⟩ := ih2 k m hk
          refine ⟨s, hm, hk2, ?_⟩
          have hne : ¬ s1 = s := by
            intro e
            apply hks
            rw [hk2, e]
          simp [startedNotFinished_append_finish, hs, hne]
      · intro s hs
        rw [startedNotFinished_append_finish] at hs
        have hs0 : startedNotFinished init s = true ∧ ¬ s1 = s := by simpa using hs
        obtain ⟨h1, hne⟩ := hs0
        have hid : ¬ spanIDOf (some s) = spanIDOf (some s1) := by
          intro e
          apply hne
          exact (hinj _ (List.mem_append_left _ (startedNotFinished_mem init s h1)) _ hlast e).symm
        rw [entryGet_entryDelete]
        simp only [hid, if_false]
        exact ih3 s h1

/-- C19, as stated, fails when two spans have the same span id: after
`StartSpan("a", WithSpanID(10))` and `StartSpan("b", WithSpanID(10))` both spans are
started and not finished, but `OpenSpans()` holds the second one only. -/
theorem OpenSpans_misses_span_with_same_id :
    startedNotFinished
        [MockCall.StartSpan (spanWithID "a" 10), MockCall.StartSpan (spanWithID "b" 10)]
        (spanWithID "a" 10) = true ∧
    mocktracer.MockSpan (some (spanWithID "a" 10)) ∉
      (newMockTracer.run
        [MockCall.StartSpan (spanWithID "a" 10),
         MockCall.StartSpan (spanWithID "b" 10)]).OpenSpans ∧
    (newMockTracer.run
        [MockCall.StartSpan (spanWithID "a" 10),
         MockCall.StartSpan (spanWithID "b" 10)]).OpenSpans =
      [mocktracer.MockSpan (some (spanWithID "b" 10))] := by
  decide

/-- C19, amended: for every sequence of `StartSpan` and `FinishSpan` calls on a new mock
tracer in which different spans have different span ids, `OpenSpans()` returns exactly
the spans that have been started and not yet finished, each of them once. -/
theorem OpenSpans_started_not_finished (calls : List MockCall)
    (hinj : ∀ c1 ∈ calls, ∀ c2 ∈ calls,
      spanIDOf (some c1.span) = spanIDOf (some c2.span) → c1.span = c2.span) :
    (∀ m, m ∈ (newMockTracer.run calls).OpenSpans ↔
      ∃ s, startedNotFinished calls s = true ∧ m = mocktracer.MockSpan (some s)) ∧
    (newMockTracer.run calls).OpenSpans.Nodup := by
  obtain ⟨h1, h2, h3⟩ := mocktracer.run_invariant calls hinj
  constructor
  · intro m
    constructor
    · intro hm
      obtain ⟨e, he, hes⟩ := List.mem_map.1 hm
      obtain ⟨k, m1⟩ := e
      simp only at hes
      subst hes
      obtain ⟨s, hs1, _, hs3⟩ := h2 k m1 (entryGet_of_mem_nodup k m1 _ h1 he)
      exact ⟨s, hs3, hs1⟩
    · rintro ⟨s, hs, hm⟩
      rw [hm]
      exact List.mem_map.2 ⟨_, mem_of_entryGet _ _ _ (h3 s hs), rfl⟩
  · have hkeys : (newMockTracer.run calls).openSpans.map Prod.fst =
        ((newMockTracer.run calls).openSpans.map Prod.snd).map fun m => spanIDOf m.sp := by
      rw [List.map_map]
      apply List.map_congr_left
      rintro ⟨k, m1⟩ he
      obtain ⟨s, hs1, hs2, _⟩ := h2 k m1 (entryGet_of_mem_nodup k m1 _ h1 he)
      simp [hs1, hs2, mocktracer.MockSpan]
    rw [hkeys] at h1
    exact List.Nodup.of_map _ h1

/-- C19, amended, at a sequence of three calls on spans with the ids 10 and 11. -/
theorem OpenSpans_started_not_finished_witness :
    (∀ m, m ∈ (newMockTracer.run
          [MockCall.StartSpan (spanWithID "a" 10), MockCall.StartSpan (spanWithID "c" 11),
           MockCall.FinishSpan (spanWithID "a" 10)]).OpenSpans ↔
      ∃ s, startedNotFinished
          [MockCall.StartSpan (spanWithID "a" 10), MockCall.StartSpan (spanWithID "c" 11),
           MockCall.FinishSpan (spanWithID "a" 10)] s = true ∧
        m = mocktracer.MockSpan (some s)) ∧
    (newMockTracer.run
        [MockCall.StartSpan (spanWithID "a" 10), MockCall.StartSpan (spanWithID "c" 11),
         MockCall.FinishSpan (spanWithID "a" 10)]).OpenSpans.Nodup :=
  OpenSpans_started_not_finished
    [MockCall.StartSpan (spanWithID "a" 10), MockCall.StartSpan (spanWithID "c" 11),
     MockCall.FinishSpan (spanWithID "a" 10)] (by decide)

/-- C20: for every mock tracer state and span `s`, after `FinishSpan(s)` the list
`FinishedSpans()` is the previous list with `s` appended at the end, the open spans have
no entry under the span id of `s`, and every other entry of the open spans is in place, in
the same order. -/
theorem FinishSpan_appends_and_removes (t : mocktracer) (s : Option V2Span) :
    sliceElems (t.FinishSpan s).FinishedSpans =
      sliceElems t.FinishedSpans ++ [mocktracer.MockSpan s] ∧
    entryGet (spanIDOf s) (t.FinishSpan s).openSpans = none ∧
    (∀ k, k ≠ spanIDOf s →
      entryGet k (t.FinishSpan s).openSpans = entryGet k t.openSpans) ∧
    (t.FinishSpan s).openSpans = t.openSpans.filter (fun e => e.1 ≠ spanIDOf s) ∧
    (t.FinishSpan s).OpenSpans =
      (t.openSpans.filter fun e => e.1 ≠ spanIDOf s).map Prod.snd := by
  refine ⟨?_, ?_, ?_, rfl, rfl⟩
  · cases hf : t.finishedSpans <;>
      simp [mocktracer.FinishSpan, mocktracer.addFinishedSpan, mocktracer.FinishedSpans,
        sliceElems, hf]
  · simp [mocktracer.FinishSpan, mocktracer.addFinishedSpan, entryGet_entryDelete]
  · intro k hk
    simp [mocktracer.FinishSpan, mocktracer.addFinishedSpan, entryGet_entryDelete, hk]

/-! ## The trace buffer -/

theorem TraceBuffer.Register_of_dropped (t : TraceBuffer) (span : V2Span)
    (h : t.dropped = true) : t.Register span = t := by
  simp [TraceBuffer.Register, h]

theorem TraceBuffer.MarkFinished_frame (t : TraceBuffer) (spanID : Nat) :
    (t.MarkFinished spanID).spans = t.spans ∧
    (t.MarkFinished spanID).dropped = t.dropped ∧
    (t.MarkFinished spanID).capacity = t.capacity ∧
    (t.dropped = true → (t.MarkFinished spanID).flushed = t.flushed) := by
  unfold TraceBuffer.MarkFinished
  dsimp only
  split_ifs with h1 h2
  · refine ⟨rfl, rfl, rfl, ?_⟩
    intro hd
    simp [hd] at h2
  · exact ⟨rfl, rfl, rfl, fun _ => rfl⟩
  · exact ⟨rfl, rfl, rfl, fun _ => rfl⟩

theorem TraceBuffer.run_of_dropped (ops : List TraceOp) :
    ∀ t : TraceBuffer, t.dropped = true →
      (t.run ops).dropped = true ∧ (t.run ops).flushed = t.flushed ∧
      (t.run ops).spans = t.spans := by
  induction ops with
  | nil => intro t h; exact ⟨h, rfl, rfl⟩
  | cons op rest ih =>
    intro t h
    cases op with
    | Register span =>
      have hs : t.step (TraceOp.Register span) = t := TraceBuffer.Register_of_dropped t span h
      simp only [TraceBuffer.run, List.foldl_cons, hs]
      exact ih t h
    | MarkFinished spanID =>
      obtain ⟨h1, h2, _, h4⟩ := TraceBuffer.MarkFinished_frame t spanID
      have hd : (t.MarkFinished spanID).dropped = true := by rw [h2, h]
      obtain ⟨i1, i2, i3⟩ := ih (t.MarkFinished spanID) hd
      simp only [TraceBuffer.run, List.foldl_cons, TraceBuffer.step]
      exact ⟨i1, i2.trans (h4 h), i3.trans h1⟩

/-- Along a run, a trace that is not dropped holds as many spans as were added, within its
capacity, and a dropped trace holds none. -/
theorem TraceBuffer.run_count (ops : List TraceOp) :
    ∀ (t : TraceBuffer) (n : Nat),
      (t.dropped = false → t.spans.length = n ∧ n ≤ t.capacity) →
      (t.dropped = true → t.spans = []) →
      ((t.run ops).dropped = false →
        (t.run ops).spans.length = n + spansAdded ops ∧
        n + spansAdded ops ≤ (t.run ops).capacity) ∧
      ((t.run ops).dropped = true → (t.run ops).spans = []) := by
  induction ops with
  | nil => intro t n h1 h2; exact ⟨fun h => by simpa [spansAdded] using h1 h, h2⟩
  | cons op rest ih =>
    intro t n h1 h2
    cases op with
    | Register span =>
      simp only [TraceBuffer.run, List.foldl_cons, TraceBuffer.step, spansAdded]
      have key := ih (t.Register span) (n + 1)
      simp only [TraceBuffer.run] at key
      have e : n + (spansAdded rest + 1) = n + 1 + spansAdded rest := by omega
      rw [e]
      apply key
      · intro hd
        cases htd : t.dropped with
        | true => simp [TraceBuffer.Register, htd] at hd
        | false =>
          obtain ⟨hl, hc⟩ := h1 htd
          by_cases hcap : t.capacity < t.spans.length + 1
          · simp [TraceBuffer.Register, htd, hcap] at hd
          · simp only [TraceBuffer.Register, htd, hcap, if_false, Bool.false_eq_true,
              List.length_append, List.length_singleton]
            omega
      · intro hd
        cases htd : t.dropped with
        | true => simpa [TraceBuffer.Register, htd] using h2 htd
        | false =>
          by_cases hcap : t.capacity < t.spans.length + 1
          · simp [TraceBuffer.Register, htd, hcap]
          · simp [TraceBuffer.Register, htd, hcap] at hd
    | MarkFinished spanID =>
      obtain ⟨f1, f2, f3, _⟩ := TraceBuffer.MarkFinished_frame t spanID
      simp only [TraceBuffer.run, List.foldl_cons, TraceBuffer.step, spansAdded]
      have key := ih (t.MarkFinished spanID) n
      simp only [TraceBuffer.run] at key
      apply key
      · intro hd
        rw [f1, f3]
        exact h1 (f2 ▸ hd)
      · intro hd
        rw [f1]
        exact h2 (f2 ▸ hd)

/-- C21: if more spans than the capacity (`traceMaxSize`) are added to a trace, the trace
is dropped and holds no span; adding a span to a dropped trace changes nothing; and
whatever operations follow on a dropped trace, in any order, it stays dropped and nothing
more is handed to the Dispatcher. -/
theorem TraceBuffer_dropped_over_capacity (capacity : Nat) :
    (∀ ops : List TraceOp, capacity < spansAdded ops →
      ((TraceBuffer.new capacity).run ops).dropped = true ∧
      ((TraceBuffer.new capacity).run ops).spans = []) ∧
    (∀ (t : TraceBuffer) (span : V2Span), t.dropped = true → t.Register span = t) ∧
    (∀ (t : TraceBuffer) (ops : List TraceOp), t.dropped = true →
      (t.run ops).dropped = true ∧ (t.run ops).flushed = t.flushed ∧
      (t.run ops).spans = t.spans) := by
  refine ⟨?_, TraceBuffer.Register_of_dropped, fun t ops h => TraceBuffer.run_of_dropped ops t h⟩
  intro ops hcap
  obtain ⟨h1, h2⟩ := TraceBuffer.run_count ops (TraceBuffer.new capacity) 0
    (fun _ => ⟨rfl, Nat.zero_le _⟩) (fun _ => rfl)
  have hc : ∀ (l : List TraceOp) (t : TraceBuffer), (t.run l).capacity = t.capacity := by
    intro l
    induction l with
    | nil => intro t; rfl
    | cons op rest ih =>
      intro t
      simp only [TraceBuffer.run, List.foldl_cons]
      have e := ih (t.step op)
      simp only [TraceBuffer.run] at e
      rw [e]
      cases op with
      | Register span =>
        simp only [TraceBuffer.step, TraceBuffer.Register]
        split
        · rfl
        · split <;> rfl
      | MarkFinished spanID => exact (TraceBuffer.MarkFinished_frame t spanID).2.2.1
  cases hd : ((TraceBuffer.new capacity).run ops).dropped with
  | true => exact ⟨rfl, h2 hd⟩
  | false =>
    have h3 := (h1 hd).2
    rw [hc] at h3
    simp only [TraceBuffer.new] at h3
    omega

/-- C21 at the run of `TestTracerTraceMaxSize`: with the capacity 3, five spans are added
and then three of them finished; the trace is dropped after the adds, and the finishes
hand nothing to the Dispatcher. -/
theorem TraceBuffer_dropped_over_capacity_witness :
    (((TraceBuffer.new 3).run
        [TraceOp.Register (spanWithID "span0" 10), TraceOp.Register (spanWithID "span1" 11),
         TraceOp.Register (spanWithID "span2" 12), TraceOp.Register (spanWithID "span3" 13),
         TraceOp.Register (spanWithID "span4" 14)]).dropped = true ∧
      ((TraceBuffer.new 3).run
        [TraceOp.Register (spanWithID "span0" 10), TraceOp.Register (spanWithID "span1" 11),
         TraceOp.Register (spanWithID "span2" 12), TraceOp.Register (spanWithID "span3" 13),
         TraceOp.Register (spanWithID "span4" 14)]).spans = []) ∧
    ((({ (TraceBuffer.new 3) with dropped := true, droppedCount := 1 } : TraceBuffer).run
        [TraceOp.MarkFinished 10, TraceOp.MarkFinished 13, TraceOp.MarkFinished 14]).dropped =
        true ∧
      (({ (TraceBuffer.new 3) with dropped := true, droppedCount := 1 } : TraceBuffer).run
        [TraceOp.MarkFinished 10, TraceOp.MarkFinished 13, TraceOp.MarkFinished 14]).flushed =
        ({ (TraceBuffer.new 3) with dropped := true, droppedCount := 1 } : TraceBuffer).flushed ∧
      (({ (TraceBuffer.new 3) with dropped := true, droppedCount := 1 } : TraceBuffer).run
        [TraceOp.MarkFinished 10, TraceOp.MarkFinished 13, TraceOp.MarkFinished 14]).spans =
        ({ (TraceBuffer.new 3) with dropped := true, droppedCount := 1 } : TraceBuffer).spans) :=
  ⟨(TraceBuffer_dropped_over_capacity 3).1 _ (by decide),
   (TraceBuffer_dropped_over_capacity 3).2.2 _ _ rfl⟩

/-! ## `rules_sampler.go` -/

/-- C22, as stated, fails for `TagsResourceRule` on a tags map that holds a nil regular
expression: `v.String()` dereferences the nil pointer and the constructor panics before
any rule is built. -/
theorem TagsResourceRule_nil_regexp_panics :
    TagsResourceRule (some [("env", none)]) "" "" "" 1 = .error Panic.nilDereference ∧
    ¬ ∃ rule, TagsResourceRule (some [("env", none)]) "" "" "" 1 = .ok rule := by
  refine ⟨rfl, ?_⟩
  rintro ⟨rule, h⟩
  simp [TagsResourceRule, convertTags, Regexp.String] at h

theorem convertTags_ok (tags : List (String × Option String)) :
    ∀ converted, (∀ e ∈ tags, e.2 ≠ none) →
      ∃ out, convertTags tags converted = .ok out := by
  induction tags with
  | nil => intro converted _; exact ⟨converted, rfl⟩
  | cons e rest ih =>
    intro converted h
    obtain ⟨k, v⟩ := e
    cases v with
    | none => exact absurd rfl (h (k, none) (List.mem_cons_self _ _))
    | some expr =>
      simp only [convertTags, Regexp.String]
      exact ih _ fun e he => h e (List.mem_cons_of_mem _ he)

/-- C22, amended: the rule constructors `ServiceRule`, `NameRule`, `NameServiceRule`,
`SpanTagsResourceRule`, `SpanNameServiceRule` and `SpanNameServiceMPSRule` return a
`SamplingRule` without panicking for every input, and `TagsResourceRule` does so for
every input whose tags map holds no nil regular expression; rates outside `[0, 1]` and
any glob text are included, and element 0 of the constructed rule list exists.  The
returned rule carries the given rate. -/
theorem rule_constructors_return (name service resource : String) (rate limit : ℚ) :
    ServiceRule service rate =
      .ok { Service := service, Name := "", Resource := "", Tags := [], Rate := rate,
            MaxPerSecond := 0, ruleType := SamplingRuleType.SamplingRuleTrace } ∧
    NameRule name rate =
      .ok { Service := "", Name := name, Resource := "", Tags := [], Rate := rate,
            MaxPerSecond := 0, ruleType := SamplingRuleType.SamplingRuleTrace } ∧
    NameServiceRule name service rate =
      .ok { Service := service, Name := name, Resource := "", Tags := [], Rate := rate,
            MaxPerSecond := 0, ruleType := SamplingRuleType.SamplingRuleTrace } ∧
    (∀ tags : GoMap, SpanTagsResourceRule tags resource name service rate =
      .ok { Service := service, Name := name, Resource := resource,
            Tags := GoMap.entries tags, Rate := rate, MaxPerSecond := 0,
            ruleType := SamplingRuleType.SamplingRuleSpan }) ∧
    SpanNameServiceRule name service rate =
      .ok { Service := service, Name := name, Resource := "", Tags := [], Rate := rate,
            MaxPerSecond := 0, ruleType := SamplingRuleType.SamplingRuleSpan } ∧
    SpanNameServiceMPSRule name service rate limit =
      .ok { Service := service, Name := name, Resource := "", Tags := [], Rate := rate,
            MaxPerSecond := limit, ruleType := SamplingRuleType.SamplingRuleSpan } ∧
    (∀ tags : Option (List (String × Option String)),
      (∀ e ∈ tags.getD [], e.2 ≠ none) →
      ∃ rule, TagsResourceRule tags resource name service rate = .ok rule ∧
        rule.Rate = rate ∧ rule.Service = service ∧ rule.Name = name ∧
        rule.Resource = resource ∧ rule.ruleType = SamplingRuleType.SamplingRuleTrace) := by
  refine ⟨rfl, rfl, rfl, fun _ => rfl, rfl, rfl, ?_⟩
  intro tags h
  obtain ⟨out, hout⟩ := convertTags_ok (tags.getD []) [] h
  refine ⟨SamplingRule.ofRule SamplingRuleType.SamplingRuleTrace
    { Rule.zero with ServiceGlob := service, NameGlob := name, ResourceGlob := resource,
                     Rate := rate, Tags := some out }, ?_, rfl, rfl, rfl, rfl, rfl⟩
  simp only [TagsResourceRule, hout, v2.TraceSamplingRules, List.map_cons, List.map_nil,
    index0]

/-- C22, amended, at a rate outside `[0, 1]` and a tags map with one regular
expression. -/
theorem rule_constructors_return_witness :
    ∃ rule, TagsResourceRule (some [("env", some "prod.*")]) "/res*" "web.?" "svc[" 2 =
        .ok rule ∧
      rule.Rate = 2 ∧ rule.Service = "svc[" ∧ rule.Name = "web.?" ∧
      rule.Resource = "/res*" ∧ rule.ruleType = SamplingRuleType.SamplingRuleTrace :=
  (rule_constructors_return "web.?" "svc[" "/res*" 2 0).2.2.2.2.2.2
    (some [("env", some "prod.*")]) (by decide)

/-! ## `option.go`: `Tag` and `setHeaderTags` -/

/-- C23: for every start-span config `cfg`, also one whose `Tags` map is nil, key `k`
and value `v`, applying `Tag(k, v)` leaves `cfg.Tags[k] == v` and every other tag and
field unchanged; applying `Tag(k, v1)` and then `Tag(k, v2)` leaves `cfg.Tags[k] == v2`
and the same tags as `Tag(k, v2)` alone; and the keys of the map stay unique. -/
theorem Tag_last_write_wins {ν : Type} (cfg : StartSpanConfig ν) (k : String) (v : ν) :
    (Tag k v cfg).tag k = some v ∧
    (∀ k1, k1 ≠ k → (Tag k v cfg).tag k1 = cfg.tag k1) ∧
    (Tag k v cfg).SpanID = cfg.SpanID ∧
    (Tag k v cfg).Tags ≠ none ∧
    (∀ v1 v2 : ν, (Tag k v2 (Tag k v1 cfg)).tag k = some v2) ∧
    (∀ (v1 v2 : ν) (k1 : String), (Tag k v2 (Tag k v1 cfg)).tag k1 = (Tag k v2 cfg).tag k1) ∧
    (((cfg.Tags.getD []).map Prod.fst).Nodup →
      (((Tag k v cfg).Tags.getD []).map Prod.fst).Nodup) := by
  have hget : ∀ (c : StartSpanConfig ν) (w : ν) (k1 : String),
      (Tag k w c).tag k1 = if k1 = k then some w else c.tag k1 := by
    intro c w k1
    cases hc : c.Tags with
    | none =>
      by_cases hk : k1 = k
      · simp [Tag, StartSpanConfig.tag, hc, entryGet_entrySet, entryGet, hk]
      · have hk2 : ¬ k = k1 := fun e => hk e.symm
        simp [Tag, StartSpanConfig.tag, hc, entryGet_entrySet, entryGet, hk, hk2]
    | some es => simp [Tag, StartSpanConfig.tag, hc, entryGet_entrySet]
  refine ⟨by simp [hget], ?_, ?_, ?_, ?_, ?_, ?_⟩
  · intro k1 hk1
    simp [hget, hk1]
  · cases hc : cfg.Tags <;> simp [Tag, hc]
  · simp [Tag]
  · intro v1 v2
    simp [hget]
  · intro v1 v2 k1
    by_cases hk1 : k1 = k <;> simp [hget, hk1]
  · intro hnd
    cases hc : cfg.Tags with
    | none => simp [Tag, hc, entrySet]
    | some es =>
      rw [hc] at hnd
      simpa [Tag, hc] using nodup_keys_entrySet k v es (by simpa using hnd)

/-- C23 at the config with a nil `Tags` map: after `Tag("k", 1)` and `Tag("k", 2)` the
map holds the one entry of `k`. -/
theorem Tag_last_write_wins_witness :
    ((((Tag "k" 1 ({ Tags := none, SpanID := 0 } : StartSpanConfig Nat)).Tags.getD []).map
        Prod.fst).Nodup →
      (((Tag "k" 2 (Tag "k" 1 ({ Tags := none, SpanID := 0 } : StartSpanConfig Nat))).Tags.getD
        []).map Prod.fst).Nodup) ∧
    (Tag "k" 2 (Tag "k" 1 ({ Tags := none, SpanID := 0 } : StartSpanConfig Nat))).tag "k" =
      some 2 ∧
    (((Tag "k" 1 ({ Tags := none, SpanID := 0 } : StartSpanConfig Nat)).Tags.getD []).map
      Prod.fst).Nodup :=
  ⟨(Tag_last_write_wins (Tag "k" 1 ({ Tags := none, SpanID := 0 } : StartSpanConfig Nat))
      "k" 2).2.2.2.2.2.2,
   (Tag_last_write_wins ({ Tags := none, SpanID := 0 } : StartSpanConfig Nat) "k" 1).2.2.2.2.1
      1 2,
   (Tag_last_write_wins ({ Tags := none, SpanID := 0 } : StartSpanConfig Nat) "k" 1).2.2.2.2.2.2
      (by decide)⟩

/-- The loop of `setHeaderTags` registers, in order, the normalized entries of the
elements that do not start with `x-datadog-`. -/
theorem setHeaderTags_loop (HeaderTag : String → String × String) (hs : List String) :
    ∀ t : HeaderTagTable,
      hs.foldl
        (fun t h =>
          if strings.HasPrefix h "x-datadog-" then t
          else globalconfig.SetHeaderTag (HeaderTag h).1 (HeaderTag h).2 t) t =
      (normalizedEntries HeaderTag hs).foldl (fun t e => entrySet e.1 e.2 t) t := by
  induction hs with
  | nil => intro t; rfl
  | cons h rest ih =>
    intro t
    by_cases hp : strings.HasPrefix h "x-datadog-" = true
    · simp only [List.foldl_cons, hp, if_true, normalizedEntries, List.filter_cons,
        Bool.not_true, Bool.false_eq_true, if_false]
      exact ih t
    · have hp2 : strings.HasPrefix h "x-datadog-" = false := by simpa using hp
      simp only [List.foldl_cons, hp2, Bool.false_eq_true, if_false, normalizedEntries,
        List.filter_cons, Bool.not_false, if_true, List.map_cons,
        globalconfig.SetHeaderTag]
      exact ih _

theorem entryGet_foldl_entrySet {ν : Type} (k : String) (es : List (String × ν)) :
    ∀ t : List (String × ν),
      entryGet k (es.foldl (fun t e => entrySet e.1 e.2 t) t) =
        match lastWrite k es with
        | some v => some v
        | none => entryGet k t := by
  induction es with
  | nil => intro t; rfl
  | cons e rest ih =>
    intro t
    obtain ⟨k1, v1⟩ := e
    simp only [List.foldl_cons, ih, lastWrite]
    cases hl : lastWrite k rest with
    | some v => rfl
    | none =>
      simp only [entryGet_entrySet]
      by_cases hk : k = k1
      · simp [hk]
      · have hk2 : ¬ k1 = k := fun e => hk e.symm
        simp [hk, hk2]

theorem nodup_keys_foldl_entrySet {ν : Type} (es : List (String × ν)) :
    ∀ t : List (String × ν), (t.map Prod.fst).Nodup →
      ((es.foldl (fun t e => entrySet e.1 e.2 t) t).map Prod.fst).Nodup := by
  induction es with
  | nil => intro t h; exact h
  | cons e rest ih =>
    intro t h
    exact ih _ (nodup_keys_entrySet e.1 e.2 t h)

theorem lastWrite_mem {ν : Type} (k : String) (v : ν) (es : List (String × ν)) :
    lastWrite k es = some v → (k, v) ∈ es := by
  induction es with
  | nil => simp [lastWrite]
  | cons e rest ih =>
    obtain ⟨k1, v1⟩ := e
    simp only [lastWrite]
    cases hl : lastWrite k rest with
    | some w =>
      intro h
      simp only [Option.some.injEq] at h
      subst h
      exact List.mem_cons_of_mem _ (ih hl)
    | none =>
      by_cases hk : k1 = k
      · simp only [hk, if_true, Option.some.injEq]
        intro h
        simp [h]
      · simp [hk]

theorem lastWrite_of_mem {ν : Type} (k : String) (v : ν) (es : List (String × ν))
    (hf : ∀ e1 ∈ es, ∀ e2 ∈ es, e1.1 = e2.1 → e1.2 = e2.2) (hm : (k, v) ∈ es) :
    lastWrite k es = some v := by
  induction es with
  | nil => simp at hm
  | cons e rest ih =>
    obtain ⟨k1, v1⟩ := e
    have hf2 : ∀ e1 ∈ rest, ∀ e2 ∈ rest, e1.1 = e2.1 → e1.2 = e2.2 :=
      fun e1 h1 e2 h2 => hf e1 (List.mem_cons_of_mem _ h1) e2 (List.mem_cons_of_mem _ h2)
    simp only [lastWrite]
    cases hl : lastWrite k rest with
    | some w =>
      have hw : (k, w) ∈ rest := lastWrite_mem k w rest hl
      have e := hf (k, w) (List.mem_cons_of_mem _ hw) (k, v) hm rfl
      simp only at e
      rw [e]
    | none =>
      rcases List.mem_cons.1 hm with h | h
      · have h1 : k = k1 := (Prod.mk.inj h).1
        have h2 : v = v1 := (Prod.mk.inj h).2
        simp [h1, h2]
      · rw [ih hf2 h] at hl
        exact absurd hl (by simp)

theorem mem_normalizedEntries (HeaderTag : String → String × String) (hs : List String)
    (e : String × String) :
    e ∈ normalizedEntries HeaderTag hs ↔
      ∃ h ∈ hs, strings.HasPrefix h "x-datadog-" = false ∧ HeaderTag h = e := by
  simp only [normalizedEntries, List.mem_map, List.mem_filter, Bool.not_eq_true']
  constructor
  · rintro ⟨h, ⟨h1, h2⟩, h3⟩
    exact ⟨h, h1, h2, h3⟩
  · rintro ⟨h, h1, h2, h3⟩
    exact ⟨h, ⟨h1, h2⟩, h3⟩

/-- C24, as stated, fails when two elements give one header different tags: for the list
`["a:t1", "a:t2"]` both elements are kept and normalize to the entries `("a", "t1")` and
`("a", "t2")`, but the table after the call holds the second one only. -/
theorem setHeaderTags_repeated_header_keeps_last :
    (setHeaderTags headerTagOfLastColon [] ["a:t1", "a:t2"]).1 = [("a", "t2")] ∧
    normalizedEntries headerTagOfLastColon ["a:t1", "a:t2"] = [("a", "t1"), ("a", "t2")] ∧
    ("a", "t1") ∈ normalizedEntries headerTagOfLastColon ["a:t1", "a:t2"] ∧
    ("a", "t1") ∉ (setHeaderTags headerTagOfLastColon [] ["a:t1", "a:t2"]).1 := by
  decide

/-- C24, amended: `setHeaderTags` returns true, and for every list `hs` and every table
before the call, the table after the call does not depend on the table before (nothing
registered before survives); it has one entry for each header, and its entries are
exactly, for each header, the normalized (header, tag) entry of the last element of `hs`
with that header among those that do not start with `x-datadog-`; when no two such
elements give one header different tags, these are exactly the normalized entries of
these elements. -/
theorem setHeaderTags_resets (HeaderTag : String → String × String) (table : HeaderTagTable)
    (hs : List String) :
    (setHeaderTags HeaderTag table hs).2 = true ∧
    (setHeaderTags HeaderTag table hs).1 = (setHeaderTags HeaderTag [] hs).1 ∧
    (∀ header, entryGet header (setHeaderTags HeaderTag table hs).1 =
      lastWrite header (normalizedEntries HeaderTag hs)) ∧
    (∀ header tag, (header, tag) ∈ (setHeaderTags HeaderTag table hs).1 ↔
      lastWrite header (normalizedEntries HeaderTag hs) = some tag) ∧
    (∀ header tag, (header, tag) ∈ (setHeaderTags HeaderTag table hs).1 →
      ∃ h ∈ hs, strings.HasPrefix h "x-datadog-" = false ∧ HeaderTag h = (header, tag)) ∧
    ((setHeaderTags HeaderTag table hs).1.map Prod.fst).Nodup ∧
    ((∀ e1 ∈ normalizedEntries HeaderTag hs, ∀ e2 ∈ normalizedEntries HeaderTag hs,
        e1.1 = e2.1 → e1.2 = e2.2) →
      ∀ header tag, (header, tag) ∈ (setHeaderTags HeaderTag table hs).1 ↔
        (header, tag) ∈ normalizedEntries HeaderTag hs) := by
  have htab : (setHeaderTags HeaderTag table hs).1 =
      (normalizedEntries HeaderTag hs).foldl (fun t e => entrySet e.1 e.2 t) [] := by
    simp only [setHeaderTags, globalconfig.ClearHeaderTags]
    exact setHeaderTags_loop HeaderTag hs []
  have hget : ∀ header, entryGet header (setHeaderTags HeaderTag table hs).1 =
      lastWrite header (normalizedEntries HeaderTag hs) := by
    intro header
    rw [htab, entryGet_foldl_entrySet]
    cases lastWrite header (normalizedEntries HeaderTag hs) <;> rfl
  have hnd : ((setHeaderTags HeaderTag table hs).1.map Prod.fst).Nodup := by
    rw [htab]
    exact nodup_keys_foldl_entrySet _ [] (by simp)
  have hmem : ∀ header tag, (header, tag) ∈ (setHeaderTags HeaderTag table hs).1 ↔
      lastWrite header (normalizedEntries HeaderTag hs) = some tag := by
    intro header tag
    constructor
    · intro hm
      rw [← hget]
      exact entryGet_of_mem_nodup header tag _ hnd hm
    · intro hl
      apply mem_of_entryGet
      rw [hget]
      exact hl
  refine ⟨rfl, rfl, hget, hmem, ?_, hnd, ?_⟩
  · intro header tag hm
    exact (mem_normalizedEntries HeaderTag hs (header, tag)).1
      (lastWrite_mem _ _ _ ((hmem header tag).1 hm))
  · intro hf header tag
    rw [hmem]
    constructor
    · exact lastWrite_mem _ _ _
    · exact lastWrite_of_mem header tag _ hf

/-- C24, amended, at a table with an earlier entry and a list with an `x-datadog-`
element and a header given twice with one tag: the table after the call holds exactly
the normalized entries of the kept elements. -/
theorem setHeaderTags_resets_witness :
    ∀ header tag,
      (header, tag) ∈ (setHeaderTags headerTagOfLastColon [("old", "x")]
          ["a:t1", "x-datadog-foo", "b", "a:t1"]).1 ↔
        (header, tag) ∈ normalizedEntries headerTagOfLastColon
          ["a:t1", "x-datadog-foo", "b", "a:t1"] :=
  (setHeaderTags_resets headerTagOfLastColon [("old", "x")]
    ["a:t1", "x-datadog-foo", "b", "a:t1"]).2.2.2.2.2.2 (by decide)

end DDTrace
